import Mathlib

/-!
Verification of the Lyric Continuation Engine of `astrbot_plugin_lyrics_trigger`
(`src/main.py`) against its natural-language specification.

The Python source is shallowly embedded: strings are handled as `String` /
`List Char`, Python `float` arithmetic is modelled exactly over `ℚ`
(`difflib`'s ratio `2.0 * matches / length` is the exact rational here),
JSON values decoded by `response.json()` are modelled by the inductive
`Json`, and code that can raise a Python exception is modelled with
`Except String`.  `str.lower` is modelled character-wise on the ASCII range
(no input relevant to the claims uses a non-ASCII cased letter), and
`str.strip` strips the ASCII whitespace characters.  Loops whose bound is
not structural are driven by an explicit fuel chosen large enough that it is
never exhausted (justified at each definition), so that every definition
evaluates in the kernel.
-/

namespace LyricPlugin

/-! ### Python string primitives -/

/-- Whitespace characters stripped by Python `str.strip()` (ASCII range). -/
def pyIsSpace (c : Char) : Bool :=
  c = ' ' || c = '\t' || c = '\n' || c = '\x0d' || c = '\x0b' || c = '\x0c'

/-- Python `str.strip()` on a character list: drop whitespace from both ends. -/
def pyStripL (l : List Char) : List Char :=
  ((l.dropWhile pyIsSpace).reverse.dropWhile pyIsSpace).reverse

/-- Python `str.strip()`. -/
def pyStrip (s : String) : String :=
  String.mk (pyStripL s.toList)

/-- Python `str.lower()` modelled on the ASCII range (character-wise). -/
def pyLowerChar (c : Char) : Char :=
  if 'A' ≤ c ∧ c ≤ 'Z' then Char.ofNat (c.toNat + 32) else c

/-- Python `s.split('\n')`: split at every newline, keeping empty pieces. -/
def splitNl : List Char → List (List Char)
  | [] => [[]]
  | c :: r =>
    match splitNl r with
    | [] => if c = '\n' then [[], []] else [[c]]
    | h :: t => if c = '\n' then [] :: h :: t else (c :: h) :: t

/-- Character of `l` at index `i` (all accesses in the embedded code are in
bounds, the default is never read). -/
def charAt (l : List Char) (i : ℕ) : Char :=
  l.getD i ' '

/-! ### The timestamp regex of `NeteaseLyricsAPI.parse_lyrics` -/

/-- Exactly two digits (`\d{2}` of the timestamp pattern); returns the
remainder on success.  Python's `\d` also matches non-ASCII decimal digits;
the model uses the ASCII digits, which no input relevant to the claims
leaves. -/
def twoDigits : List Char → Option (List Char)
  | a :: b :: r => if a.isDigit ∧ b.isDigit then some r else none
  | _ => none

/-- The optional group `(:\d{2})?` of the timestamp pattern: consume `:` plus
two digits when present, otherwise consume nothing. -/
def optThirdPair (l : List Char) : List Char :=
  match l with
  | ':' :: r =>
    match twoDigits r with
    | some r' => r'
    | none => l
  | _ => l

/-- The optional `\.?` of the timestamp pattern. -/
def optDot (l : List Char) : List Char :=
  match l with
  | '.' :: r => r
  | _ => l

/-- Matcher for the timestamp regex `\[\d{2}:\d{2}(:\d{2})?\.?\d*\]` of
`NeteaseLyricsAPI.parse_lyrics`, tried at the head of the list; returns the
remainder after the match.  The regex is deterministic: if the optional group
`(:\d{2})?` matches, the character at the group position is `:`, which can
start none of `\.?`, `\d*`, `\]`, so no backtracking into the group can ever
succeed, and `\d*` is followed by the non-digit `\]`. -/
def tryTimestamp : List Char → Option (List Char)
  | '[' :: r =>
    (twoDigits r).bind fun r1 =>
      match r1 with
      | ':' :: r2 =>
        (twoDigits r2).bind fun r3 =>
          match (optDot (optThirdPair r3)).dropWhile Char.isDigit with
          | ']' :: r7 => some r7
          | _ => none
      | _ => none
  | _ => none

/-- The substitution `re.sub(timestampPattern, '', line)`: scan left to right,
replacing each non-overlapping match by nothing.  The recursion is driven by
a structural fuel so that the kernel can evaluate it; every step consumes at
least one character (`tryTimestamp_length` below), so fuel `l.length` is
never exhausted. -/
def stripTimestampsAux : ℕ → List Char → List Char
  | 0, l => l
  | _ + 1, [] => []
  | fuel + 1, c :: rest =>
    match tryTimestamp (c :: rest) with
    | some rem => stripTimestampsAux fuel rem
    | none => c :: stripTimestampsAux fuel rest

/-- Remove every timestamp match from a line (`re.sub(pattern, '', line)`). -/
def stripTimestamps (l : List Char) : List Char :=
  stripTimestampsAux l.length l

/-- Embedding of `NeteaseLyricsAPI.parse_lyrics`: split the raw lyric text on
newlines, strip every bracketed timestamp from each line, trim whitespace,
and keep the non-empty results in order. -/
def parse_lyrics (lyric_text : String) : List String :=
  if lyric_text.toList = [] then []
  else
    (splitNl lyric_text.toList).filterMap fun line =>
      let cleaned := pyStripL (stripTimestamps line)
      if cleaned = [] then none else some (String.mk cleaned)

/-! ### difflib.SequenceMatcher, as instantiated by `Main.calculate_similarity`
(`SequenceMatcher(None, str1_clean, str2_clean).ratio()`) -/

/-- `b2j.setdefault(elt, []).append(i)`: append index `j` to the bucket of
character `ch`, creating the bucket at the end on first occurrence. -/
def b2jInsert (m : List (Char × List ℕ)) (ch : Char) (j : ℕ) : List (Char × List ℕ) :=
  match m with
  | [] => [(ch, [j])]
  | (c0, js) :: rest =>
    if c0 = ch then (c0, js ++ [j]) :: rest else (c0, js) :: b2jInsert rest ch j

/-- The index-building loop `for i, elt in enumerate(b)` of `__chain_b`. -/
def b2jBuildAux : List Char → ℕ → List (Char × List ℕ) → List (Char × List ℕ)
  | [], _, m => m
  | ch :: rest, j, m => b2jBuildAux rest (j + 1) (b2jInsert m ch j)

/-- `__chain_b` for `isjunk = None` (hence `bjunk = ∅`) with autojunk: when
`len(b) >= 200`, entries of characters occurring more than
`ntest = len(b) // 100 + 1` times are deleted as popular. -/
def chainB (b : List Char) : List (Char × List ℕ) :=
  let raw := b2jBuildAux b 0 []
  if 200 ≤ b.length then
    raw.filter fun e => decide (e.2.length ≤ b.length / 100 + 1)
  else raw

/-- `b2j.get(ch, [])`. -/
def b2jLookup (m : List (Char × List ℕ)) (ch : Char) : List ℕ :=
  match m with
  | [] => []
  | (c0, js) :: rest => if c0 = ch then js else b2jLookup rest ch

/-- One row of `find_longest_match`'s inner dynamic-programming loop:
process a-index `i`, scanning the b-positions of `a[i]`.  The map `st.1` is
the previous row (`j2len.get(j-1, 0)` is application of the map with the
dict's default `0`; Python's `j-1` at `j = 0` is the absent key `-1`, hence
the `j = 0` guard), a fresh `newj2len` starts empty each row, and the best
block becomes `(i-k+1, j-k+1, k)` whenever `k > bestsize`.  The
`continue` on `j < blo` and `break` on `j >= bhi` are together a filter,
because the position lists of `chainB` are ascending. -/
def flmRow (a : List Char) (b2j : List (Char × List ℕ)) (blo bhi : ℕ)
    (st : (ℕ → ℕ) × (ℕ × ℕ × ℕ)) (i : ℕ) : (ℕ → ℕ) × (ℕ × ℕ × ℕ) :=
  ((b2jLookup b2j (charAt a i)).filter fun j => decide (blo ≤ j ∧ j < bhi)).foldl
    (fun acc j =>
      let k := (if j = 0 then 0 else st.1 (j - 1)) + 1
      (Function.update acc.1 j k,
        if acc.2.2.2 < k then (i + 1 - k, j + 1 - k, k) else acc.2))
    (fun _ => 0, st.2)

/-- The two backward extension `while` loops of `find_longest_match` (the
first with `not isbjunk(...)`, i.e. `flag = false`, the second with
`isbjunk(...)`, i.e. `flag = true`).  Structural recursion on `besti`, which
strictly decreases and stays above `alo`. -/
def extBack (a b : List Char) (jt : Char → Bool) (flag : Bool) (alo blo : ℕ) :
    ℕ → ℕ → ℕ → ℕ × ℕ × ℕ
  | 0, bj, bk => (0, bj, bk)
  | bi + 1, bj, bk =>
    if alo < bi + 1 ∧ blo < bj ∧ jt (charAt b (bj - 1)) = flag ∧
        charAt a bi = charAt b (bj - 1) then
      extBack a b jt flag alo blo bi (bj - 1) (bk + 1)
    else (bi + 1, bj, bk)

/-- The two forward extension `while` loops of `find_longest_match` (returns
the final `bestsize`; `besti`, `bestj` are unchanged by these loops).  Each
step increases `besti + bestsize`, which stays `< ahi`, so fuel `ahi` is
never exhausted. -/
def extFwd (a b : List Char) (jt : Char → Bool) (flag : Bool)
    (ahi bhi bi bj : ℕ) : ℕ → ℕ → ℕ
  | 0, bk => bk
  | fuel + 1, bk =>
    if bi + bk < ahi ∧ bj + bk < bhi ∧ jt (charAt b (bj + bk)) = flag ∧
        charAt a (bi + bk) = charAt b (bj + bk) then
      extFwd a b jt flag ahi bhi bi bj fuel (bk + 1)
    else bk

/-- `SequenceMatcher.find_longest_match(alo, ahi, blo, bhi)`: the inner
dynamic-programming loop over `range(alo, ahi)` followed by the four
extension loops (non-junk backward/forward, then junk backward/forward).
`jt` is membership in `bjunk`; the call sites use `isjunk = None`, i.e.
`jt = fun _ => false`. -/
def findLongestMatch (a b : List Char) (b2j : List (Char × List ℕ))
    (jt : Char → Bool) (alo ahi blo bhi : ℕ) : ℕ × ℕ × ℕ :=
  let st := (List.range' alo (ahi - alo)).foldl (flmRow a b2j blo bhi)
    (fun _ => 0, (alo, blo, 0))
  let b1 := st.2
  let b2 := extBack a b jt false alo blo b1.1 b1.2.1 b1.2.2
  let b3 := (b2.1, b2.2.1, extFwd a b jt false ahi bhi b2.1 b2.2.1 ahi b2.2.2)
  let b4 := extBack a b jt true alo blo b3.1 b3.2.1 b3.2.2
  (b4.1, b4.2.1, extFwd a b jt true ahi bhi b4.1 b4.2.1 ahi b4.2.2)

/-- Total size of the matching blocks found by `get_matching_blocks`'s
queue recursion — exactly the `matches` summed by `ratio()` (sorting the
blocks and merging adjacent ones do not change the sum).  Every recursive
call strictly shrinks `(ahi - alo) + (bhi - blo)` (the returned block is
non-empty and contained in the region), so fuel `len(a) + len(b) + 1` at the
top-level call is never exhausted. -/
def matchSumAux (a b : List Char) (b2j : List (Char × List ℕ))
    (jt : Char → Bool) : ℕ → ℕ → ℕ → ℕ → ℕ → ℕ
  | 0, _, _, _, _ => 0
  | fuel + 1, alo, ahi, blo, bhi =>
    let m := findLongestMatch a b b2j jt alo ahi blo bhi
    if m.2.2 = 0 then 0
    else m.2.2 +
      (if alo < m.1 ∧ blo < m.2.1 then matchSumAux a b b2j jt fuel alo m.1 blo m.2.1
       else 0) +
      (if m.1 + m.2.2 < ahi ∧ m.2.1 + m.2.2 < bhi then
        matchSumAux a b b2j jt fuel (m.1 + m.2.2) ahi (m.2.1 + m.2.2) bhi
       else 0)

/-- `SequenceMatcher(None, a, b).ratio()`: `2.0 * matches / (len(a) + len(b))`
computed exactly over `ℚ` (`_calculate_ratio` returns `0.0` when the total
length is `0`). -/
def smRatio (a b : List Char) : ℚ :=
  let M := matchSumAux a b (chainB b) (fun _ => false)
    (a.length + b.length + 1) 0 a.length 0 b.length
  if a.length + b.length = 0 then 0
  else 2 * (M : ℚ) / ((a.length : ℚ) + (b.length : ℚ))

/-- The cleanup of `Main.calculate_similarity`:
`s.lower().replace(" ", "")`. -/
def cleanStr (s : String) : List Char :=
  (s.toList.map pyLowerChar).filter fun c => decide (¬ c = ' ')

/-- Embedding of `Main.calculate_similarity`: `0.0` when either string (or
either cleaned string) is empty/falsy, otherwise the `SequenceMatcher`
ratio of the cleaned strings. -/
def calculate_similarity (str1 str2 : String) : ℚ :=
  if str1.toList = [] ∨ str2.toList = [] then 0
  else
    let str1_clean := cleanStr str1
    let str2_clean := cleanStr str2
    if str1_clean = [] ∨ str2_clean = [] then 0
    else smRatio str1_clean str2_clean

/-! ### The line scan of `Main.find_matching_lyric` -/

/-- The scan `for i, line in enumerate(lines[:-1])` of
`Main.find_matching_lyric`: at the first index `i` (starting at 0) with
`calculate_similarity(user_text, lines[i]) >= threshold` the loop stops with
`(i, lines[i], lines[i+1])`; the final line is never tested (`lines[:-1]`),
and with no hit the scan falls through to `none`. -/
def scanForNextAux (threshold : ℚ) (user_text : String) :
    ℕ → List String → Option (ℕ × String × String)
  | _, [] => none
  | _, [_] => none
  | i, line :: next :: rest =>
    if threshold ≤ calculate_similarity user_text line then some (i, line, next)
    else scanForNextAux threshold user_text (i + 1) (next :: rest)

/-- The line scan started at index 0 over the full parsed line list. -/
def scanForNext (threshold : ℚ) (user_text : String) (lines : List String) :
    Option (ℕ × String × String) :=
  scanForNextAux threshold user_text 0 lines

/-! ### JSON values and the Netease API client -/

/-- A decoded JSON value as returned by `response.json()` (Python `int` and
`float` are merged into one exact numeric constructor). -/
inductive Json where
  | null : Json
  | bool : Bool → Json
  | num : ℚ → Json
  | str : String → Json
  | arr : List Json → Json
  | obj : List (String × Json) → Json

/-- Python truthiness of a decoded JSON value. -/
def Json.truthy : Json → Bool
  | .null => false
  | .bool b => b
  | .num q => decide (¬ q = 0)
  | .str s => decide (¬ s = "")
  | .arr [] => false
  | .arr (_ :: _) => true
  | .obj [] => false
  | .obj (_ :: _) => true

/-- Key lookup in a decoded JSON object (keys from `json` decoding are
unique, so first match wins). -/
def kvLookup : List (String × Json) → String → Option Json
  | [], _ => none
  | (k0, v) :: rest, k => if k0 = k then some v else kvLookup rest k

/-- Outcome of one `session.get(...)` call together with body decoding: one
of the three caught exception classes, or a response carrying a status code
and, when `response.json()` succeeds, the decoded body. -/
inductive HttpResult where
  | clientError : HttpResult
  | timeoutError : HttpResult
  | otherError : HttpResult
  | resp : ℕ → Option Json → HttpResult

/-- Embedding of `NeteaseLyricsAPI.search_songs`: every caught exception and
every non-200 status returns `[]`; on a decoded body, the value of
`data.get("result", {}).get("songs", [])` is returned as-is — an
`AttributeError` from a non-dict `data` or a non-dict `result` is caught by
the blanket `except Exception` and yields `[]`, but a present `songs` value
of any type is returned without validation. -/
def search_songs : HttpResult → Json
  | .clientError => .arr []
  | .timeoutError => .arr []
  | .otherError => .arr []
  | .resp status body =>
    if ¬ status = 200 then .arr []
    else
      match body with
      | none => .arr []
      | some data =>
        match data with
        | .obj kvs =>
          match (kvLookup kvs "result").getD (.obj []) with
          | .obj rkvs => (kvLookup rkvs "songs").getD (.arr [])
          | _ => .arr []
        | _ => .arr []

/-- Embedding of `NeteaseLyricsAPI.get_lyrics`: every caught exception and
every non-200 status yields `None`; a decoded body is returned only when
`data.get("lrc")` is truthy and `data["lrc"].get("lyric")` is truthy (an
`AttributeError` from a non-dict `data` or non-dict `lrc` is caught by the
blanket `except Exception` and yields `None`). -/
def get_lyrics : HttpResult → Option Json
  | .clientError => none
  | .timeoutError => none
  | .otherError => none
  | .resp status body =>
    if ¬ status = 200 then none
    else
      match body with
      | none => none
      | some data =>
        match data with
        | .obj kvs =>
          let lrc := (kvLookup kvs "lrc").getD .null
          if ¬ lrc.truthy then none
          else
            match lrc with
            | .obj lkvs =>
              if ((kvLookup lkvs "lyric").getD .null).truthy then some data else none
            | _ => none
        | _ => none

/-! ### `Main.find_matching_lyric` -/

/-- The `for song in songs` loop of `Main.find_matching_lyric`,
parameterized by the result `lyricsO` of each `get_lyrics` call.  Returns
the loop's outcome together with the number of `get_lyrics` calls made.
Candidates with an absent or falsy `id`, a falsy `get_lyrics` result, fewer
than two parsed lines, or no scan hit are skipped with `continue`.  A
non-dict `song` raises `AttributeError` at `song.get` (uncaught inside
`find_matching_lyric`), `lyrics_data["lrc"]["lyric"]` raises on a missing
key or unsubscriptable value, and `parse_lyrics` raises on a non-string
lyric; these are modelled as `Except.error`. -/
def songLoop (threshold : ℚ) (user_text : String) (lyricsO : Json → Option Json) :
    List Json → ℕ → Except String (Option (Json × String × String × Json)) × ℕ
  | [], fetches => (.ok none, fetches)
  | song :: rest, fetches =>
    match song with
    | .obj kvs =>
      let song_name := (kvLookup kvs "name").getD (.str "未知歌曲")
      match kvLookup kvs "id" with
      | none => songLoop threshold user_text lyricsO rest fetches
      | some sid =>
        if ¬ sid.truthy then songLoop threshold user_text lyricsO rest fetches
        else
          match lyricsO sid with
          | none => songLoop threshold user_text lyricsO rest (fetches + 1)
          | some ld =>
            if ¬ ld.truthy then songLoop threshold user_text lyricsO rest (fetches + 1)
            else
              match ld with
              | .obj ldkvs =>
                match kvLookup ldkvs "lrc" with
                | none => (.error "KeyError: lrc", fetches + 1)
                | some lrc =>
                  match lrc with
                  | .obj lrckvs =>
                    match kvLookup lrckvs "lyric" with
                    | none => (.error "KeyError: lyric", fetches + 1)
                    | some lt =>
                      match lt with
                      | .str lyric_text =>
                        let lines := parse_lyrics lyric_text
                        if lines.length < 2 then
                          songLoop threshold user_text lyricsO rest (fetches + 1)
                        else
                          match scanForNext threshold user_text lines with
                          | some (_, line, next_line) =>
                            (.ok (some (song_name, line, next_line, sid)), fetches + 1)
                          | none => songLoop threshold user_text lyricsO rest (fetches + 1)
                      | _ => (.error "AttributeError: split called on a non-string lyric", fetches + 1)
                  | _ => (.error "TypeError: lrc value is not subscriptable", fetches + 1)
              | _ => (.error "TypeError: lyrics data is not subscriptable", fetches + 1)
    | _ => (.error "AttributeError: song has no get method", fetches)

/-- Embedding of `Main.find_matching_lyric`, parameterized by the values
returned by the two client methods (`searchO` for `search_songs`, `lyricsO`
for `get_lyrics`).  The result comes with the number of `search_songs`
calls (the single unconditional call the method makes) and the number of
`get_lyrics` calls.  Iterating a truthy non-list `songs` value always
raises on its first element (`song.get` on a string character or key, or
`TypeError` for a non-iterable), modelled as an error. -/
def find_matching_lyric (threshold : ℚ) (max_search_results : ℕ)
    (user_text : String) (searchO : String → ℕ → Json)
    (lyricsO : Json → Option Json) :
    Except String (Option (Json × String × String × Json)) × ℕ × ℕ :=
  let songs := searchO user_text max_search_results
  if ¬ songs.truthy then (.ok none, 1, 0)
  else
    match songs with
    | .arr l =>
      let r := songLoop threshold user_text lyricsO l 0
      (r.1, 1, r.2)
    | _ => (.error "AttributeError: iterating a non-list songs value", 1, 0)

/-- One resolver invocation: the inputs of one `find_matching_lyric` call. -/
structure Invocation where
  threshold : ℚ
  max_search_results : ℕ
  user_text : String
  searchO : String → ℕ → Json
  lyricsO : Json → Option Json

/-- Number of `search_songs` calls one invocation performs. -/
def Invocation.searchCalls (inv : Invocation) : ℕ :=
  (find_matching_lyric inv.threshold inv.max_search_results inv.user_text
    inv.searchO inv.lyricsO).2.1

/-- Total `search_songs` calls of a set of concurrent invocations.
`find_matching_lyric` touches no mutable shared state (the session and
config are read-only and there is no store or in-flight map), so under
every interleaving the outbound calls are the disjoint union of each
invocation's own calls. -/
def totalSearchCalls (invs : List Invocation) : ℕ :=
  (invs.map Invocation.searchCalls).sum

/-! ### Configuration validation (`Main._validate_and_set_config`) -/

/-- A Python value held in the plugin's config dict; `vother` stands for
values of any type other than `str`, `int`, `bool`, `float`, `None`
(the validation only inspects types and numeric values). -/
inductive PyVal where
  | vstr : String → PyVal
  | vint : ℤ → PyVal
  | vbool : Bool → PyVal
  | vfloat : ℚ → PyVal
  | vnone : PyVal
  | vother : PyVal
deriving DecidableEq

/-- `isinstance(x, (int, float))`; Python's `bool` is a subclass of `int`. -/
def PyVal.isNumeric : PyVal → Bool
  | .vint _ => true
  | .vbool _ => true
  | .vfloat _ => true
  | _ => false

/-- `isinstance(x, int)` (which includes `bool`). -/
def PyVal.isInt : PyVal → Bool
  | .vint _ => true
  | .vbool _ => true
  | _ => false

/-- Numeric value of an int/bool/float (unused on other constructors). -/
def PyVal.toRat : PyVal → ℚ
  | .vint n => (n : ℚ)
  | .vbool b => if b then 1 else 0
  | .vfloat q => q
  | _ => 0

/-- `config.get(key, default)`. -/
def cfgGet : List (String × PyVal) → String → PyVal → PyVal
  | [], _, default => default
  | (k0, v) :: rest, k, default => if k0 = k then v else cfgGet rest k default

/-- `config[key] = value` on the dict model. -/
def cfgSet : List (String × PyVal) → String → PyVal → List (String × PyVal)
  | [], k, v => [(k, v)]
  | (k0, v0) :: rest, k, v =>
    if k0 = k then (k0, v) :: rest else (k0, v0) :: cfgSet rest k v

/-- `str.startswith`. -/
def strStartsWith (s p : String) : Bool :=
  p.toList.isPrefixOf s.toList

/-- Default `api_url` (`Main.DEFAULT_API_URL`). -/
def DEFAULT_API_URL : String := "http://127.0.0.1:3000"

/-- Default similarity threshold 0.6 (`Main.DEFAULT_SIMILARITY_THRESHOLD`). -/
def DEFAULT_SIMILARITY_THRESHOLD : PyVal := .vfloat (6 / 10)

/-- Default search result limit (`Main.DEFAULT_MAX_SEARCH_RESULTS`). -/
def DEFAULT_MAX_SEARCH_RESULTS : PyVal := .vint 5

/-- Default LLM prompt template (`Main.DEFAULT_TRIGGER_PROMPT`); `\x27` is
the apostrophe. -/
def DEFAULT_TRIGGER_PROMPT : String :=
  "歌词：\x27{lyric}\x27，下一句是：\x27{next_line}\x27。请输出后半句歌词，并简短地表达你的情感。"

/-- Embedding of `Main._validate_and_set_config`: each option is read with
its default, type- and range-checked, and written back into the config
dict in source order; a failed check raises `ValueError` with a descriptive
message, modelled as `Except.error`. -/
def validate_and_set_config (cfg : List (String × PyVal)) :
    Except String (List (String × PyVal)) :=
  match cfgGet cfg "api_url" (.vstr DEFAULT_API_URL) with
  | .vstr u =>
    if ¬ (strStartsWith u "http://" ∨ strStartsWith u "https://") then
      .error "api_url 必须是有效的 HTTP/HTTPS URL"
    else
      let cfg1 := cfgSet cfg "api_url" (.vstr u)
      let threshold := cfgGet cfg1 "similarity_threshold" DEFAULT_SIMILARITY_THRESHOLD
      if ¬ (threshold.isNumeric ∧ 0 ≤ threshold.toRat ∧ threshold.toRat ≤ 1) then
        .error "similarity_threshold 必须是 0.0 到 1.0 之间的数字"
      else
        let cfg2 := cfgSet cfg1 "similarity_threshold" (.vfloat threshold.toRat)
        let max_results := cfgGet cfg2 "max_search_results" DEFAULT_MAX_SEARCH_RESULTS
        if ¬ (max_results.isInt ∧ 1 ≤ max_results.toRat) then
          .error "max_search_results 必须是正整数"
        else
          let cfg3 := cfgSet cfg2 "max_search_results" max_results
          match cfgGet cfg3 "trigger_prompt" (.vstr DEFAULT_TRIGGER_PROMPT) with
          | .vstr p =>
            if pyStrip p = "" then .error "trigger_prompt 必须是非空字符串"
            else .ok (cfgSet cfg3 "trigger_prompt" (.vstr p))
          | _ => .error "trigger_prompt 必须是非空字符串"
  | _ => .error "api_url 必须是有效的 HTTP/HTTPS URL"

/-! ### `Main._extract_lyric_from_command` -/

/-- The command markers of `Main.COMMAND_PREFIXES`, in source order. -/
def COMMAND_PREFIXES : List String := ["/歌词匹配", "/lyric", "/匹配歌词", "/lyricmatch"]

/-- Stable insertion of `x` behind every already-placed element that is
strictly longer: the insertion step of a stable descending-length sort
(`x` is placed before the first element not longer than itself, so elements
of equal length keep their original relative order). -/
def stableInsertDescLen (x : String) : List String → List String
  | [] => [x]
  | y :: r => if x.length < y.length then y :: stableInsertDescLen x r else x :: y :: r

/-- A stable sort by descending length (right-to-left insertion sort). -/
def stableSortDescLen : List String → List String
  | [] => []
  | x :: r => stableInsertDescLen x (stableSortDescLen r)

/-- `sorted(self.COMMAND_PREFIXES, key=len, reverse=True)`: Python's
`sorted` is stable, so it is the unique stable descending-by-length
permutation, which the stable insertion sort above computes (Python's `len`
counts code points, as `String.length` does). -/
def sortedCmdMarkers : List String :=
  stableSortDescLen COMMAND_PREFIXES

/-- `message[len(marker):]`. -/
def strDropChars (s : String) (n : ℕ) : String :=
  String.mk (s.toList.drop n)

/-- The marker loop of `Main._extract_lyric_from_command`: the first (hence
longest) marker the message starts with is removed and the remainder
stripped (`break` after the first hit); otherwise the message is returned
unchanged. -/
def extractLoop (message : String) : List String → String
  | [] => message
  | p :: rest =>
    if strStartsWith message p then pyStrip (strDropChars message p.length)
    else extractLoop message rest

/-- Embedding of `Main._extract_lyric_from_command`. -/
def extract_lyric_from_command (message : String) : String :=
  extractLoop message sortedCmdMarkers

/-! ### Characterizations used by the proofs -/

/-- Position indices of character `ch` in a string, starting at offset `s`:
the contents of the `b2j` buckets built by `b2jBuildAux`. -/
def occIdx : List Char → ℕ → Char → List ℕ
  | [], _, _ => []
  | x :: r, s, ch => if x = ch then s :: occIdx r (s + 1) ch else occIdx r (s + 1) ch

/-- The character keys of a `b2j` association list. -/
def b2jKeys (m : List (Char × List ℕ)) : List Char :=
  m.map Prod.fst

/-- The filtered bucket scanned by `flmRow` at a-index `i` over the full
region `[0, len c)` when both sides of the matcher are `c`. -/
def rowOf (c : List Char) (i : ℕ) : List ℕ :=
  (b2jLookup (chainB c) (charAt c i)).filter fun j => decide (0 ≤ j ∧ j < c.length)

/-- Dynamic-programming value of `find_longest_match`'s inner loop on equal
strings over the full region: `j2len[j]` right after row `i` is processed
(0 when `j` is not in row `i`'s bucket). -/
def kval (c : List Char) : ℕ → ℕ → ℕ
  | 0, j => if j ∈ rowOf c 0 then 1 else 0
  | i + 1, j =>
    if j ∈ rowOf c (i + 1) then
      (if ¬ j = 0 ∧ (j - 1) ∈ rowOf c i then kval c i (j - 1) else 0) + 1
    else 0

/-- The `j2len` map as a function, as it stands after row `i`. -/
def rowFn (c : List Char) (i : ℕ) : ℕ → ℕ :=
  fun j => if j ∈ rowOf c i then kval c i j else 0

/-- The lyric text a well-formed `get_lyrics` result carries
(`lyrics_data["lrc"]["lyric"]` when that navigation yields a string). -/
def fetchedLyric : Json → Option String
  | .obj ldkvs =>
    match kvLookup ldkvs "lrc" with
    | some (.obj lrckvs) =>
      match kvLookup lrckvs "lyric" with
      | some (.str s) => some s
      | _ => none
    | _ => none
  | _ => none

/-- The candidate scan stated in the specification's own terms (used to
check `Main.find_matching_lyric` against it): walk the search-result
candidates in list order; skip a candidate whose `id` is absent or falsy,
whose lyrics fetch is `none` or falsy, or whose parsed lyric lines number
fewer than two; return the scan hit of the earliest candidate whose lines
contain one, or `none` when every candidate is skipped or unmatched. -/
def candidateScanSpec (threshold : ℚ) (user_text : String)
    (lyricsO : Json → Option Json) :
    List Json → Option (Json × String × String × Json)
  | [] => none
  | song :: rest =>
    match song with
    | .obj kvs =>
      match kvLookup kvs "id" with
      | none => candidateScanSpec threshold user_text lyricsO rest
      | some sid =>
        if ¬ sid.truthy then candidateScanSpec threshold user_text lyricsO rest
        else
          match lyricsO sid with
          | none => candidateScanSpec threshold user_text lyricsO rest
          | some ld =>
            if ¬ ld.truthy then candidateScanSpec threshold user_text lyricsO rest
            else
              match fetchedLyric ld with
              | some lyric_text =>
                let lines := parse_lyrics lyric_text
                if lines.length < 2 then candidateScanSpec threshold user_text lyricsO rest
                else
                  match scanForNext threshold user_text lines with
                  | some (_, line, next_line) =>
                    some ((kvLookup kvs "name").getD (.str "未知歌曲"), line, next_line, sid)
                  | none => candidateScanSpec threshold user_text lyricsO rest
              | none => candidateScanSpec threshold user_text lyricsO rest
    | _ => candidateScanSpec threshold user_text lyricsO rest

/-! ### Theorems: the timestamp matcher consumes characters -/

theorem twoDigits_length {l r : List Char} (h : twoDigits l = some r) :
    r.length + 2 = l.length := by
  match l with
  | [] => simp [twoDigits] at h
  | [a] => simp [twoDigits] at h
  | a :: b :: t =>
    simp only [twoDigits] at h
    split at h
    · cases h; simp
    · cases h

theorem optThirdPair_length (l : List Char) : (optThirdPair l).length ≤ l.length := by
  unfold optThirdPair
  split
  · next r =>
    match h : twoDigits r with
    | some r' =>
      simp only [h]
      have := twoDigits_length h
      simp only [List.length_cons]
      omega
    | none => simp [h]
  · exact Nat.le_refl _

theorem optDot_length (l : List Char) : (optDot l).length ≤ l.length := by
  unfold optDot
  split
  · simp
  · exact Nat.le_refl _

theorem dropWhile_length_le (p : Char → Bool) (l : List Char) :
    (l.dropWhile p).length ≤ l.length := by
  induction l with
  | nil => simp [List.dropWhile]
  | cons c r ih =>
    simp only [List.dropWhile]
    split
    · exact Nat.le_succ_of_le ih
    · simp

theorem tryTimestamp_length {l r : List Char} (h : tryTimestamp l = some r) :
    r.length < l.length := by
  unfold tryTimestamp at h
  split at h
  · next t =>
    match h1 : twoDigits t with
    | none => rw [h1] at h; exact absurd h (by simp)
    | some r1 =>
      rw [h1, Option.some_bind] at h
      have hl1 := twoDigits_length h1
      split at h
      · next r2 =>
        match h2 : twoDigits r2 with
        | none => rw [h2] at h; exact absurd h (by simp)
        | some r3 =>
          rw [h2, Option.some_bind] at h
          have hl2 := twoDigits_length h2
          have h3 : (optDot (optThirdPair r3)).length ≤ r3.length :=
            le_trans (optDot_length _) (optThirdPair_length _)
          have h4 : ((optDot (optThirdPair r3)).dropWhile Char.isDigit).length ≤
              (optDot (optThirdPair r3)).length := dropWhile_length_le _ _
          split at h
          · next r7 heq7 =>
            cases h
            rw [heq7] at h4
            simp only [List.length_cons] at hl1 h4 ⊢
            omega
          · cases h
      · cases h
  · cases h

/-- Fuel adequacy of the substitution scan: any two sufficient fuels give the
same result, so `stripTimestamps`'s choice of `l.length` is canonical. -/
theorem stripTimestampsAux_fuel :
    ∀ (fuel₁ fuel₂ : ℕ) (l : List Char), l.length ≤ fuel₁ → l.length ≤ fuel₂ →
      stripTimestampsAux fuel₁ l = stripTimestampsAux fuel₂ l := by
  intro fuel₁
  induction fuel₁ with
  | zero =>
    intro fuel₂ l h1 _
    have : l = [] := List.length_eq_zero.mp (by omega)
    subst this
    cases fuel₂ <;> rfl
  | succ fp ih =>
    intro fuel₂ l h1 h2
    match l with
    | [] => cases fuel₂ <;> rfl
    | c :: rest =>
      obtain ⟨fm, rfl⟩ : ∃ fm, fuel₂ = fm + 1 := by
        cases fuel₂
        · simp at h2
        · exact ⟨_, rfl⟩
      rw [stripTimestampsAux, stripTimestampsAux]
      match h : tryTimestamp (c :: rest) with
      | some rem =>
        have := tryTimestamp_length h
        exact ih fm rem (by simp only [List.length_cons] at this h1 ⊢; omega)
          (by simp only [List.length_cons] at this h2 ⊢; omega)
      | none =>
        rw [ih fm rest (by simp only [List.length_cons] at h1; omega)
          (by simp only [List.length_cons] at h2; omega)]

/-- Fuel adequacy of the forward extension loops: the loop stops as soon as
`bi + bestsize` reaches `ahi`, so any fuel at least `ahi - (bi + bk)` gives
the same result; `findLongestMatch`'s choice of `ahi` is canonical. -/
theorem extFwd_fuel (a b : List Char) (jt : Char → Bool) (flag : Bool)
    (ahi bhi bi bj : ℕ) :
    ∀ (fuel₁ fuel₂ bk : ℕ), ahi ≤ bi + bk + fuel₁ → ahi ≤ bi + bk + fuel₂ →
      extFwd a b jt flag ahi bhi bi bj fuel₁ bk =
        extFwd a b jt flag ahi bhi bi bj fuel₂ bk := by
  intro fuel₁
  induction fuel₁ with
  | zero =>
    intro fuel₂ bk h1 _
    cases fuel₂ with
    | zero => rfl
    | succ fm =>
      rw [extFwd, extFwd, if_neg (by rintro ⟨h, _⟩; omega)]
  | succ fp ih =>
    intro fuel₂ bk h1 h2
    cases fuel₂ with
    | zero =>
      rw [extFwd, extFwd, if_neg (by rintro ⟨h, _⟩; omega)]
    | succ fm =>
      rw [extFwd, extFwd]
      by_cases hc : bi + bk < ahi ∧ bj + bk < bhi ∧ jt (charAt b (bj + bk)) = flag ∧
          charAt a (bi + bk) = charAt b (bj + bk)
      · rw [if_pos hc, if_pos hc]
        exact ih fm (bk + 1) (by omega) (by omega)
      · rw [if_neg hc, if_neg hc]

/-! ### Claim C1: LRC parsing and metadata lines -/

/-- Claim C1 counterexample: parsing
`"[00:01.23]Line One\n作词：X\n[00:05.00]Line Two"` does not give
`["Line One", "Line Two"]` — the metadata-label line `作词：X` is kept, not
dropped. -/
theorem parse_lyrics_metadata_counterexample :
    ¬ parse_lyrics "[00:01.23]Line One\n作词：X\n[00:05.00]Line Two" =
      ["Line One", "Line Two"] := by
  decide

/-- Claim C1 (amended): `parse_lyrics` strips bracketed timestamps, trims
whitespace and drops lines left empty, but does not drop metadata-label
lines; the example input parses to `["Line One", "作词：X", "Line Two"]`. -/
theorem parse_lyrics_example_keeps_metadata :
    parse_lyrics "[00:01.23]Line One\n作词：X\n[00:05.00]Line Two" =
      ["Line One", "作词：X", "Line Two"] := by
  decide

/-! ### Claim C2: no coalescing of concurrent lookups -/

theorem searchCalls_eq_one (inv : Invocation) : inv.searchCalls = 1 := by
  dsimp only [Invocation.searchCalls, find_matching_lyric]
  split
  · rfl
  · split <;> rfl

/-- Claim C2 counterexample: two invocations with the same uncached input
text issue two `search_songs` calls in total, not at most one shared one. -/
theorem no_coalescing_counterexample :
    totalSearchCalls
      [⟨6 / 10, 5, "same text", fun _ _ => Json.arr [], fun _ => none⟩,
       ⟨6 / 10, 5, "same text", fun _ _ => Json.arr [], fun _ => none⟩] = 2 ∧
    ¬ (2 : ℕ) ≤ 1 := by
  exact ⟨rfl, by decide⟩

/-- Claim C2 (amended): there is no coalescing and no cache —
`find_matching_lyric` performs its own unconditional `search_songs` call on
every invocation, so `n` concurrent invocations with the same input text
perform `n` search calls (the invocations share no mutable state, so this
holds under every interleaving). -/
theorem every_invocation_searches :
    (∀ inv : Invocation, inv.searchCalls = 1) ∧
    (∀ (n : ℕ) (inv : Invocation), totalSearchCalls (List.replicate n inv) = n) := by
  refine ⟨searchCalls_eq_one, ?_⟩
  intro n inv
  induction n with
  | zero => rfl
  | succ m ih =>
    simp only [totalSearchCalls, List.replicate_succ, List.map_cons, List.sum_cons,
      searchCalls_eq_one]
    simp only [totalSearchCalls] at ih
    omega

/-! ### Claim C10: command marker extraction -/

theorem sortedCmdMarkers_eval :
    sortedCmdMarkers = ["/lyricmatch", "/lyric", "/歌词匹配", "/匹配歌词"] := by
  decide

/-- Claim C10: extracting the lyric content removes at most one command
marker — the longest recognized marker the message starts with, markers
being tried in descending length order — and strips surrounding whitespace
from the remainder; a message starting with no recognized marker is
returned unchanged. -/
theorem extract_lyric_longest_marker (message : String) :
    ((∃ p ∈ COMMAND_PREFIXES, strStartsWith message p = true) →
      ∃ p ∈ COMMAND_PREFIXES, strStartsWith message p = true ∧
        extract_lyric_from_command message =
          pyStrip (strDropChars message p.length) ∧
        ∀ q ∈ COMMAND_PREFIXES, strStartsWith message q = true →
          q.length ≤ p.length) ∧
    ((∀ p ∈ COMMAND_PREFIXES, ¬ strStartsWith message p = true) →
      extract_lyric_from_command message = message) := by
  constructor
  · rintro ⟨p₀, hp₀mem, hp₀⟩
    by_cases h1 : strStartsWith message "/lyricmatch" = true
    · refine ⟨"/lyricmatch", by simp [COMMAND_PREFIXES], h1, ?_, ?_⟩
      · simp [extract_lyric_from_command, sortedCmdMarkers_eval, extractLoop, h1]
      · intro q hq _
        simp only [COMMAND_PREFIXES, List.mem_cons, List.not_mem_nil, or_false] at hq
        rcases hq with rfl | rfl | rfl | rfl <;> decide
    · by_cases h2 : strStartsWith message "/lyric" = true
      · refine ⟨"/lyric", by simp [COMMAND_PREFIXES], h2, ?_, ?_⟩
        · simp [extract_lyric_from_command, sortedCmdMarkers_eval, extractLoop, h1, h2]
        · intro q hq hqs
          simp only [COMMAND_PREFIXES, List.mem_cons, List.not_mem_nil, or_false] at hq
          rcases hq with rfl | rfl | rfl | rfl
          · decide
          · decide
          · decide
          · exact absurd hqs h1
      · by_cases h3 : strStartsWith message "/歌词匹配" = true
        · refine ⟨"/歌词匹配", by simp [COMMAND_PREFIXES], h3, ?_, ?_⟩
          · simp [extract_lyric_from_command, sortedCmdMarkers_eval, extractLoop,
              h1, h2, h3]
          · intro q hq hqs
            simp only [COMMAND_PREFIXES, List.mem_cons, List.not_mem_nil, or_false] at hq
            rcases hq with rfl | rfl | rfl | rfl
            · decide
            · exact absurd hqs h2
            · decide
            · exact absurd hqs h1
        · by_cases h4 : strStartsWith message "/匹配歌词" = true
          · refine ⟨"/匹配歌词", by simp [COMMAND_PREFIXES], h4, ?_, ?_⟩
            · simp [extract_lyric_from_command, sortedCmdMarkers_eval, extractLoop,
                h1, h2, h3, h4]
            · intro q hq hqs
              simp only [COMMAND_PREFIXES, List.mem_cons, List.not_mem_nil, or_false] at hq
              rcases hq with rfl | rfl | rfl | rfl
              · exact absurd hqs h3
              · exact absurd hqs h2
              · decide
              · exact absurd hqs h1
          · simp only [COMMAND_PREFIXES, List.mem_cons, List.not_mem_nil, or_false] at hp₀mem
            rcases hp₀mem with rfl | rfl | rfl | rfl
            · exact absurd hp₀ h3
            · exact absurd hp₀ h2
            · exact absurd hp₀ h4
            · exact absurd hp₀ h1
  · intro hall
    have h1 := hall "/lyricmatch" (by simp [COMMAND_PREFIXES])
    have h2 := hall "/lyric" (by simp [COMMAND_PREFIXES])
    have h3 := hall "/歌词匹配" (by simp [COMMAND_PREFIXES])
    have h4 := hall "/匹配歌词" (by simp [COMMAND_PREFIXES])
    simp [extract_lyric_from_command, sortedCmdMarkers_eval, extractLoop,
      h1, h2, h3, h4]

/-- Witness for claim C10 at concrete inputs. -/
theorem extract_lyric_longest_marker_witness :
    extract_lyric_from_command "nothing here" = "nothing here" := by
  exact (extract_lyric_longest_marker "nothing here").2 (by decide)

/-! ### Claim C8: eager configuration validation -/

theorem cfgGet_cfgSet_ne (cfg : List (String × PyVal)) {k k' : String}
    (v d : PyVal) (h : ¬ k = k') : cfgGet (cfgSet cfg k v) k' d = cfgGet cfg k' d := by
  induction cfg with
  | nil => simp [cfgSet, cfgGet, h]
  | cons e rest ih =>
    obtain ⟨k0, v0⟩ := e
    by_cases h0 : k0 = k
    · subst h0
      simp [cfgSet, cfgGet, h]
    · simp only [cfgSet, if_neg h0, cfgGet]
      by_cases h1 : k0 = k'
      · simp [h1]
      · simp [h1, ih]

/-- Claim C8: configuration is validated eagerly — an API URL that is not
HTTP(S), a numeric similarity threshold outside `[0, 1]`, a non-positive
integer result limit, or a blank prompt template each make
`_validate_and_set_config` raise a descriptive `ValueError` (no silent
clamping), while every configuration whose four options are in range (or
absent, taking their defaults) validates successfully. -/
theorem config_validated_eagerly (cfg : List (String × PyVal)) :
    (∀ u, cfgGet cfg "api_url" (.vstr DEFAULT_API_URL) = .vstr u →
      ¬ (strStartsWith u "http://" = true ∨ strStartsWith u "https://" = true) →
      ∃ msg, validate_and_set_config cfg = .error msg ∧ ¬ msg = "") ∧
    (∀ t, cfgGet cfg "similarity_threshold" DEFAULT_SIMILARITY_THRESHOLD = t →
      t.isNumeric = true → ¬ (0 ≤ t.toRat ∧ t.toRat ≤ 1) →
      ∃ msg, validate_and_set_config cfg = .error msg ∧ ¬ msg = "") ∧
    (∀ m : ℤ, cfgGet cfg "max_search_results" DEFAULT_MAX_SEARCH_RESULTS = .vint m →
      m < 1 → ∃ msg, validate_and_set_config cfg = .error msg ∧ ¬ msg = "") ∧
    (∀ p, cfgGet cfg "trigger_prompt" (.vstr DEFAULT_TRIGGER_PROMPT) = .vstr p →
      pyStrip p = "" → ∃ msg, validate_and_set_config cfg = .error msg ∧ ¬ msg = "") ∧
    ((∃ u, cfgGet cfg "api_url" (.vstr DEFAULT_API_URL) = .vstr u ∧
        (strStartsWith u "http://" = true ∨ strStartsWith u "https://" = true)) →
      (cfgGet cfg "similarity_threshold" DEFAULT_SIMILARITY_THRESHOLD).isNumeric = true →
      0 ≤ (cfgGet cfg "similarity_threshold" DEFAULT_SIMILARITY_THRESHOLD).toRat →
      (cfgGet cfg "similarity_threshold" DEFAULT_SIMILARITY_THRESHOLD).toRat ≤ 1 →
      (cfgGet cfg "max_search_results" DEFAULT_MAX_SEARCH_RESULTS).isInt = true →
      1 ≤ (cfgGet cfg "max_search_results" DEFAULT_MAX_SEARCH_RESULTS).toRat →
      (∃ p, cfgGet cfg "trigger_prompt" (.vstr DEFAULT_TRIGGER_PROMPT) = .vstr p ∧
        ¬ pyStrip p = "") →
      ∃ out, validate_and_set_config cfg = .ok out) := by
  have hthr : cfgGet (cfgSet cfg "api_url" (.vstr (match cfgGet cfg "api_url"
      (.vstr DEFAULT_API_URL) with | .vstr u => u | _ => ""))) "similarity_threshold"
      DEFAULT_SIMILARITY_THRESHOLD =
      cfgGet cfg "similarity_threshold" DEFAULT_SIMILARITY_THRESHOLD :=
    cfgGet_cfgSet_ne _ _ _ (by decide)
  refine ⟨?_, ?_, ?_, ?_, ?_⟩
  · intro u hu hbad
    simp only [validate_and_set_config, hu, if_pos hbad]
    exact ⟨_, rfl, by decide⟩
  · intro t ht hnum hrange
    simp only [validate_and_set_config]
    split
    · next u hu =>
      split
      · exact ⟨_, rfl, by decide⟩
      · rw [cfgGet_cfgSet_ne _ _ _ (by decide), ht]
        rw [if_pos (by intro hc; exact hrange ⟨hc.2.1, hc.2.2⟩)]
        exact ⟨_, rfl, by decide⟩
    · exact ⟨_, rfl, by decide⟩
  · intro m hm hlt
    simp only [validate_and_set_config]
    split
    · next u hu =>
      split
      · exact ⟨_, rfl, by decide⟩
      · split
        · exact ⟨_, rfl, by decide⟩
        · rw [cfgGet_cfgSet_ne _ _ _ (by decide), cfgGet_cfgSet_ne _ _ _ (by decide), hm]
          rw [if_pos ?_]
          · exact ⟨_, rfl, by decide⟩
          · intro hc
            have := hc.2
            simp only [PyVal.toRat] at this
            have : (1 : ℤ) ≤ m := by exact_mod_cast this
            omega
    · exact ⟨_, rfl, by decide⟩
  · intro p hp hblank
    simp only [validate_and_set_config]
    split
    · next u hu =>
      split
      · exact ⟨_, rfl, by decide⟩
      · split
        · exact ⟨_, rfl, by decide⟩
        · split
          · exact ⟨_, rfl, by decide⟩
          · rw [cfgGet_cfgSet_ne _ _ _ (by decide), cfgGet_cfgSet_ne _ _ _ (by decide),
              cfgGet_cfgSet_ne _ _ _ (by decide), hp]
            simp only [hblank, if_pos rfl]
            exact ⟨_, rfl, by decide⟩
    · exact ⟨_, rfl, by decide⟩
  · rintro ⟨u, hu, hurl⟩ hnum h0 h1 hint hge ⟨p, hp, hblank⟩
    simp only [validate_and_set_config, hu]
    rw [if_neg (not_not_intro hurl)]
    rw [cfgGet_cfgSet_ne _ _ _ (by decide)]
    rw [if_neg (by
      intro hc
      exact hc ⟨hnum, h0, h1⟩)]
    rw [cfgGet_cfgSet_ne _ _ _ (by decide), cfgGet_cfgSet_ne _ _ _ (by decide)]
    rw [if_neg (by
      intro hc
      exact hc ⟨hint, hge⟩)]
    rw [cfgGet_cfgSet_ne _ _ _ (by decide), cfgGet_cfgSet_ne _ _ _ (by decide),
      cfgGet_cfgSet_ne _ _ _ (by decide), hp]
    dsimp only
    rw [if_neg hblank]
    exact ⟨_, rfl⟩

/-- Witness for claim C8: the empty configuration (all defaults) validates,
and an out-of-range threshold fails with a message. -/
theorem config_validated_eagerly_witness :
    (∃ out, validate_and_set_config [] = .ok out) ∧
    (∃ msg, validate_and_set_config [("similarity_threshold", PyVal.vfloat 2)] =
      .error msg ∧ ¬ msg = "") := by
  constructor
  · apply (config_validated_eagerly []).2.2.2.2
    · exact ⟨DEFAULT_API_URL, rfl, by decide⟩
    · rfl
    · norm_num [cfgGet, DEFAULT_SIMILARITY_THRESHOLD, PyVal.toRat]
    · norm_num [cfgGet, DEFAULT_SIMILARITY_THRESHOLD, PyVal.toRat]
    · rfl
    · norm_num [cfgGet, DEFAULT_MAX_SEARCH_RESULTS, PyVal.toRat]
    · exact ⟨DEFAULT_TRIGGER_PROMPT, rfl, by decide⟩
  · refine (config_validated_eagerly [("similarity_threshold", PyVal.vfloat 2)]).2.1
      (PyVal.vfloat 2) rfl rfl ?_
    norm_num [PyVal.toRat]

/-! ### Claim C7: client error collapsing -/

/-- Claim C7 counterexample: a 200 response whose decoded body is the
schema-malformed `{"result": {"songs": 42}}` makes `search_songs` return
the number 42 as-is — neither the empty list nor a none-like value. -/
theorem search_songs_unvalidated_counterexample :
    search_songs (.resp 200 (some (.obj [("result", .obj [("songs", .num 42)])]))) =
      .num 42 ∧
    ¬ Json.num 42 = Json.arr [] ∧ ¬ Json.num 42 = Json.null := by
  refine ⟨rfl, ?_, ?_⟩ <;> intro h <;> exact Json.noConfusion h

/-- Claim C7 (amended): every transport failure, timeout, non-200 status,
body-decoding failure, and type-mismatched `data`/`result` container
collapses locally to `[]` (search) or `None` (lyrics) without propagating
an exception; however `search_songs` returns a present `songs` value
unvalidated, so a schema-malformed body with a non-list `songs` value is
returned as-is instead of collapsing to empty. -/
theorem client_errors_collapse :
    (search_songs .clientError = .arr [] ∧ search_songs .timeoutError = .arr [] ∧
      search_songs .otherError = .arr [] ∧ get_lyrics .clientError = none ∧
      get_lyrics .timeoutError = none ∧ get_lyrics .otherError = none) ∧
    (∀ (st : ℕ) (body : Option Json), ¬ st = 200 →
      search_songs (.resp st body) = .arr [] ∧ get_lyrics (.resp st body) = none) ∧
    (∀ st : ℕ, search_songs (.resp st none) = .arr [] ∧
      get_lyrics (.resp st none) = none) ∧
    (∀ d : Json, (∀ kvs, ¬ d = .obj kvs) →
      search_songs (.resp 200 (some d)) = .arr [] ∧
      get_lyrics (.resp 200 (some d)) = none) ∧
    (∀ kvs v, kvLookup kvs "result" = some v → (∀ rkvs, ¬ v = .obj rkvs) →
      search_songs (.resp 200 (some (.obj kvs))) = .arr []) ∧
    (∀ kvs rkvs sv, kvLookup kvs "result" = some (.obj rkvs) →
      kvLookup rkvs "songs" = some sv →
      search_songs (.resp 200 (some (.obj kvs))) = sv) := by
  refine ⟨⟨rfl, rfl, rfl, rfl, rfl, rfl⟩, ?_, ?_, ?_, ?_, ?_⟩
  · intro st body hst
    constructor
    · simp only [search_songs, if_pos hst]
    · simp only [get_lyrics, if_pos hst]
  · intro st
    constructor
    · simp only [search_songs]
      split <;> rfl
    · simp only [get_lyrics]
      split <;> rfl
  · intro d hd
    match d, hd with
    | .null, _ => exact ⟨rfl, rfl⟩
    | .bool b, _ => exact ⟨rfl, rfl⟩
    | .num q, _ => exact ⟨rfl, rfl⟩
    | .str s, _ => exact ⟨rfl, rfl⟩
    | .arr l, _ => exact ⟨rfl, rfl⟩
    | .obj kvs, hd => exact absurd rfl (hd kvs)
  · intro kvs v hv hno
    have hbase : search_songs (.resp 200 (some (.obj kvs))) =
        (match (kvLookup kvs "result").getD (.obj []) with
         | .obj rkvs => (kvLookup rkvs "songs").getD (.arr [])
         | _ => .arr []) := rfl
    rw [hbase, hv]
    match v, hno with
    | .null, _ => rfl
    | .bool b, _ => rfl
    | .num q, _ => rfl
    | .str s, _ => rfl
    | .arr l, _ => rfl
    | .obj rkvs, hno => exact absurd rfl (hno rkvs)
  · intro kvs rkvs sv hr hs
    have hbase : search_songs (.resp 200 (some (.obj kvs))) =
        (match (kvLookup kvs "result").getD (.obj []) with
         | .obj rkvs => (kvLookup rkvs "songs").getD (.arr [])
         | _ => .arr []) := rfl
    rw [hbase, hr]
    dsimp only [Option.getD_some]
    rw [hs]
    rfl

/-- Witness for claim C7 at concrete outcomes. -/
theorem client_errors_collapse_witness :
    (search_songs (.resp 500 none) = .arr [] ∧ get_lyrics (.resp 500 none) = none) ∧
    search_songs (.resp 200 (some (.obj [("result", .obj [("songs",
      .arr [.str "x"])])]))) = .arr [.str "x"] := by
  constructor
  · exact client_errors_collapse.2.1 500 none (by decide)
  · exact client_errors_collapse.2.2.2.2.2 _ _ _ rfl rfl

/-! ### The `b2j` index of equal strings

For the identity `ratio(c, c) = 1` we characterize the buckets built by
`__chain_b`: each bucket is the ascending list of the character's positions,
and autojunk only deletes whole buckets. -/

theorem charAt_cons_zero (x : Char) (r : List Char) : charAt (x :: r) 0 = x := rfl

theorem charAt_cons_succ (x : Char) (r : List Char) (k : ℕ) :
    charAt (x :: r) (k + 1) = charAt r k := rfl

theorem mem_occIdx {c : List Char} {s j : ℕ} {ch : Char} :
    j ∈ occIdx c s ch ↔ s ≤ j ∧ j < s + c.length ∧ charAt c (j - s) = ch := by
  induction c generalizing s with
  | nil =>
    simp only [occIdx, List.not_mem_nil, List.length_nil, Nat.add_zero, false_iff]
    rintro ⟨h1, h2, _⟩
    omega
  | cons x r ih =>
    simp only [occIdx, List.length_cons]
    constructor
    · intro hmem
      have hcases : j = s ∧ x = ch ∨ j ∈ occIdx r (s + 1) ch := by
        by_cases hx : x = ch
        · rw [if_pos hx] at hmem
          rcases List.mem_cons.mp hmem with rfl | hm
          · exact Or.inl ⟨rfl, hx⟩
          · exact Or.inr hm
        · rw [if_neg hx] at hmem
          exact Or.inr hmem
      rcases hcases with ⟨rfl, rfl⟩ | hm
      · exact ⟨le_refl _, by omega, by rw [Nat.sub_self, charAt_cons_zero]⟩
      · obtain ⟨h1, h2, h3⟩ := ih.mp hm
        refine ⟨by omega, by omega, ?_⟩
        have hd : j - s = (j - (s + 1)) + 1 := by omega
        rw [hd, charAt_cons_succ]
        exact h3
    · rintro ⟨h1, h2, h3⟩
      by_cases hj : j = s
      · subst hj
        rw [Nat.sub_self, charAt_cons_zero] at h3
        rw [if_pos h3]
        exact List.mem_cons_self _ _
      · have hmem : j ∈ occIdx r (s + 1) ch := by
          apply ih.mpr
          refine ⟨by omega, by omega, ?_⟩
          have hd : j - s = (j - (s + 1)) + 1 := by omega
          rw [hd, charAt_cons_succ] at h3
          exact h3
        by_cases hx : x = ch
        · rw [if_pos hx]
          exact List.mem_cons_of_mem _ hmem
        · rw [if_neg hx]
          exact hmem

theorem occIdx_lower {c : List Char} {s j : ℕ} {ch : Char}
    (h : j ∈ occIdx c s ch) : s ≤ j :=
  (mem_occIdx.mp h).1

theorem occIdx_sorted (c : List Char) (s : ℕ) (ch : Char) :
    List.Pairwise (· < ·) (occIdx c s ch) := by
  induction c generalizing s with
  | nil => simp [occIdx]
  | cons x r ih =>
    simp only [occIdx]
    split
    · exact List.Pairwise.cons
        (fun j hj => lt_of_lt_of_le (Nat.lt_succ_self s) (occIdx_lower hj)) (ih _)
    · exact ih _

theorem b2jLookup_insert_self (m : List (Char × List ℕ)) (ch : Char) (j : ℕ) :
    b2jLookup (b2jInsert m ch j) ch = b2jLookup m ch ++ [j] := by
  induction m with
  | nil => simp [b2jInsert, b2jLookup]
  | cons e rest ih =>
    obtain ⟨c0, js⟩ := e
    by_cases h : c0 = ch
    · subst h
      simp [b2jInsert, b2jLookup]
    · simp [b2jInsert, b2jLookup, h, ih]

theorem b2jLookup_insert_ne (m : List (Char × List ℕ)) {ch ch' : Char} (j : ℕ)
    (h : ¬ ch = ch') : b2jLookup (b2jInsert m ch j) ch' = b2jLookup m ch' := by
  induction m with
  | nil => simp [b2jInsert, b2jLookup, h]
  | cons e rest ih =>
    obtain ⟨c0, js⟩ := e
    by_cases h0 : c0 = ch
    · subst h0
      simp only [b2jInsert, if_pos rfl, b2jLookup, if_neg h]
    · simp only [b2jInsert, if_neg h0, b2jLookup]
      by_cases h1 : c0 = ch'
      · rw [if_pos h1, if_pos h1]
      · rw [if_neg h1, if_neg h1, ih]

theorem b2jLookup_buildAux (b : List Char) (s : ℕ) (m : List (Char × List ℕ))
    (ch : Char) :
    b2jLookup (b2jBuildAux b s m) ch = b2jLookup m ch ++ occIdx b s ch := by
  induction b generalizing s m with
  | nil => simp [b2jBuildAux, occIdx]
  | cons x r ih =>
    simp only [b2jBuildAux, occIdx]
    by_cases hx : x = ch
    · subst hx
      rw [ih, b2jLookup_insert_self]
      simp
    · rw [ih, b2jLookup_insert_ne _ _ hx, if_neg hx]

theorem b2jKeys_insert (m : List (Char × List ℕ)) (ch : Char) (j : ℕ) :
    b2jKeys (b2jInsert m ch j) = if ch ∈ b2jKeys m then b2jKeys m else b2jKeys m ++ [ch] := by
  induction m with
  | nil => simp [b2jInsert, b2jKeys]
  | cons e rest ih =>
    obtain ⟨c0, js⟩ := e
    by_cases h : c0 = ch
    · subst h
      simp [b2jInsert, b2jKeys]
    · simp only [b2jInsert, if_neg h, b2jKeys, List.map_cons] at ih ⊢
      rw [ih]
      by_cases hm : ch ∈ List.map Prod.fst rest
      · rw [if_pos hm, if_pos (List.mem_cons_of_mem _ hm)]
      · rw [if_neg hm, if_neg (by
          simp only [List.mem_cons]
          rintro (h' | h')
          · exact h h'.symm
          · exact hm h'), List.cons_append]

theorem b2jKeys_nodup_insert {m : List (Char × List ℕ)} (ch : Char) (j : ℕ)
    (h : (b2jKeys m).Nodup) : (b2jKeys (b2jInsert m ch j)).Nodup := by
  rw [b2jKeys_insert]
  by_cases hm : ch ∈ b2jKeys m
  · simpa [hm] using h
  · rw [if_neg hm]
    simpa [List.nodup_append] using ⟨h, hm⟩

theorem b2jKeys_nodup_buildAux (b : List Char) (s : ℕ) (m : List (Char × List ℕ))
    (h : (b2jKeys m).Nodup) : (b2jKeys (b2jBuildAux b s m)).Nodup := by
  induction b generalizing s m with
  | nil => exact h
  | cons x r ih => exact ih _ _ (b2jKeys_nodup_insert x s h)

theorem b2jLookup_eq_nil_of_not_mem {m : List (Char × List ℕ)} {ch : Char}
    (h : ¬ ch ∈ b2jKeys m) : b2jLookup m ch = [] := by
  induction m with
  | nil => rfl
  | cons e rest ih =>
    obtain ⟨c0, js⟩ := e
    simp only [b2jKeys, List.map_cons, List.mem_cons] at h
    push_neg at h
    simp only [b2jLookup, if_neg (fun hh : c0 = ch => h.1 hh.symm)]
    exact ih (by simpa [b2jKeys] using h.2)

theorem b2jKeys_filter_subset (p : Char × List ℕ → Bool) (m : List (Char × List ℕ)) :
    b2jKeys (m.filter p) ⊆ b2jKeys m := by
  intro a ha
  simp only [b2jKeys, List.mem_map] at ha ⊢
  obtain ⟨e, he, rfl⟩ := ha
  exact ⟨e, List.mem_of_mem_filter he, rfl⟩

theorem b2jLookup_filter (p : Char × List ℕ → Bool) (m : List (Char × List ℕ))
    (ch : Char) (h : (b2jKeys m).Nodup) :
    b2jLookup (m.filter p) ch = b2jLookup m ch ∨ b2jLookup (m.filter p) ch = [] := by
  induction m with
  | nil => exact Or.inl rfl
  | cons e rest ih =>
    obtain ⟨c0, js⟩ := e
    simp only [b2jKeys, List.map_cons, List.nodup_cons] at h
    by_cases hp : p (c0, js) = true
    · rw [List.filter_cons, if_pos hp]
      by_cases hc : c0 = ch
      · subst hc
        left
        simp [b2jLookup]
      · simp only [b2jLookup, if_neg hc]
        exact ih h.2
    · rw [List.filter_cons, if_neg hp]
      by_cases hc : c0 = ch
      · subst hc
        right
        apply b2jLookup_eq_nil_of_not_mem
        intro hmem
        exact h.1 (b2jKeys_filter_subset p rest hmem)
      · simp only [b2jLookup, if_neg hc]
        exact ih h.2

theorem b2jLookup_chainB (c : List Char) (ch : Char) :
    b2jLookup (chainB c) ch = occIdx c 0 ch ∨ b2jLookup (chainB c) ch = [] := by
  have hraw : b2jLookup (b2jBuildAux c 0 []) ch = occIdx c 0 ch := by
    rw [b2jLookup_buildAux]
    rfl
  unfold chainB
  split
  · have hnodup : (b2jKeys (b2jBuildAux c 0 [])).Nodup :=
      b2jKeys_nodup_buildAux c 0 [] (by simp [b2jKeys])
    rcases b2jLookup_filter (fun e => decide (e.2.length ≤ c.length / 100 + 1))
        (b2jBuildAux c 0 []) ch hnodup with h | h
    · rw [h, hraw]
      exact Or.inl rfl
    · exact Or.inr h
  · exact Or.inl hraw

/-! ### The scanned rows on equal strings -/

theorem rowOf_eq_occIdx_or_nil (c : List Char) (i : ℕ) :
    rowOf c i = occIdx c 0 (charAt c i) ∨ rowOf c i = [] := by
  unfold rowOf
  rcases b2jLookup_chainB c (charAt c i) with h | h
  · rw [h]
    left
    apply List.filter_eq_self.mpr
    intro j hj
    have := mem_occIdx.mp hj
    simp only [decide_eq_true_eq]
    omega
  · rw [h]
    exact Or.inr rfl

theorem mem_rowOf {c : List Char} {i j : ℕ} (h : j ∈ rowOf c i) :
    j < c.length ∧ charAt c j = charAt c i := by
  rcases rowOf_eq_occIdx_or_nil c i with hr | hr
  · rw [hr] at h
    have := mem_occIdx.mp h
    rw [Nat.sub_zero] at this
    exact ⟨by omega, this.2.2⟩
  · rw [hr] at h
    exact absurd h (List.not_mem_nil j)

theorem rowOf_congr {c : List Char} {i i' : ℕ} (h : charAt c i = charAt c i') :
    rowOf c i = rowOf c i' := by
  unfold rowOf
  rw [h]

theorem self_mem_rowOf {c : List Char} {i j : ℕ} (hi : i < c.length)
    (h : j ∈ rowOf c i) : i ∈ rowOf c i := by
  rcases rowOf_eq_occIdx_or_nil c i with hr | hr
  · rw [hr]
    exact mem_occIdx.mpr ⟨Nat.zero_le i, by omega, by rw [Nat.sub_zero]⟩
  · rw [hr] at h
    exact absurd h (List.not_mem_nil j)

theorem mem_rowOf_self {c : List Char} {i j : ℕ} (h : j ∈ rowOf c i) :
    j ∈ rowOf c j := by
  have hmem := mem_rowOf h
  rw [← rowOf_congr hmem.2] at h
  exact h

theorem rowOf_sorted (c : List Char) (i : ℕ) :
    List.Pairwise (· < ·) (rowOf c i) := by
  rcases rowOf_eq_occIdx_or_nil c i with hr | hr <;> rw [hr]
  · exact occIdx_sorted c 0 (charAt c i)
  · exact List.Pairwise.nil

/-! ### The dynamic-programming values on equal strings -/

theorem kval_pos {c : List Char} {i j : ℕ} (h : j ∈ rowOf c i) :
    1 ≤ kval c i j := by
  cases i with
  | zero => simp [kval, h]
  | succ ip =>
    simp only [kval, if_pos h]
    omega

theorem kval_le {c : List Char} (i j : ℕ) : kval c i j ≤ i + 1 := by
  induction i generalizing j with
  | zero =>
    simp only [kval]
    split <;> omega
  | succ ip ih =>
    simp only [kval]
    split
    · split
      · have := ih (j - 1)
        omega
      · omega
    · omega

/-- Chain dominance toward the earlier diagonal: a match chain ending at
`(i, j)` with `j < i` is no longer than the diagonal chain ending at
`(j, j)`. -/
theorem kval_le_diag_left {c : List Char} :
    ∀ i j, j < i → j ∈ rowOf c i → kval c i j ≤ kval c j j := by
  intro i
  induction i with
  | zero => intro j hj _; omega
  | succ ip ih =>
    intro j hj hmem
    have hjrow : j ∈ rowOf c j := mem_rowOf_self hmem
    simp only [kval, if_pos hmem]
    split
    · next hcond =>
      obtain ⟨hj0, hprev⟩ := hcond
      -- j = jm + 1; the chain extends, and so does the diagonal chain at j
      obtain ⟨jm, rfl⟩ : ∃ jm, j = jm + 1 := ⟨j - 1, by omega⟩
      simp only [Nat.add_sub_cancel] at hprev ⊢
      have hjmrow : jm ∈ rowOf c jm := mem_rowOf_self hprev
      have hstep : kval c (jm + 1) (jm + 1) = kval c jm jm + 1 := by
        simp only [kval, if_pos hjrow, Nat.add_sub_cancel]
        rw [if_pos ⟨by omega, hjmrow⟩]
      rw [hstep]
      have hle : kval c ip jm ≤ kval c jm jm := by
        rcases Nat.lt_or_ge jm ip with hlt | hge
        · exact ih jm hlt hprev
        · have : jm = ip := by omega
          subst this
          exact le_refl _
      omega
    · exact kval_pos hjrow
    -- the no-chain case: the value is 1 and every diagonal value is ≥ 1

/-- Chain dominance toward the earlier diagonal on the other side: a match
chain ending at `(i, j)` with `i < j` is no longer than the diagonal chain
ending at `(i, i)`. -/
theorem kval_le_diag_right {c : List Char} :
    ∀ i j, i < j → i < c.length → j ∈ rowOf c i → kval c i j ≤ kval c i i := by
  intro i
  induction i with
  | zero =>
    intro j hj hlen hmem
    have h0 : (0 : ℕ) ∈ rowOf c 0 := self_mem_rowOf hlen hmem
    simp [kval, hmem, h0]
  | succ ip ih =>
    intro j hj hlen hmem
    have hself : ip + 1 ∈ rowOf c (ip + 1) := self_mem_rowOf hlen hmem
    simp only [kval, if_pos hmem, if_pos hself, Nat.add_sub_cancel]
    split
    · next hcond =>
      obtain ⟨hj0, hprev⟩ := hcond
      have hiprow : ip ∈ rowOf c ip := self_mem_rowOf (by omega) hprev
      rw [if_pos ⟨by omega, hiprow⟩]
      have hle : kval c ip (j - 1) ≤ kval c ip ip := by
        rcases Nat.lt_or_ge ip (j - 1) with hlt | hge
        · exact ih (j - 1) hlt (by omega) hprev
        · have : j - 1 = ip := by omega
          subst this
          exact le_refl _
      omega
    · split <;> omega

/-! ### The inner loop of `find_longest_match` keeps a diagonal best block
on equal strings

Scanning in row order (`i` ascending, bucket positions `j` ascending), an
off-diagonal value `kval c I j` can never strictly exceed the running best:
the dominating diagonal value (`kval c j j` for `j < I`, `kval c I I` for
`I < j`) was scanned strictly earlier.  Hence the best block stays diagonal
throughout. -/

theorem k_char (c : List Char) (I : ℕ) (prev : ℕ → ℕ)
    (hprev : (I = 0 ∧ ∀ j, prev j = 0) ∨ (1 ≤ I ∧ ∀ j, prev j = rowFn c (I - 1) j)) :
    ∀ j ∈ rowOf c I, (if j = 0 then 0 else prev (j - 1)) + 1 = kval c I j := by
  intro j hj
  rcases hprev with ⟨hI0, hfn⟩ | ⟨hI1, hfn⟩
  · subst hI0
    simp only [kval, if_pos hj]
    split <;> simp [hfn]
  · obtain ⟨ip, rfl⟩ : ∃ ip, I = ip + 1 := ⟨I - 1, by omega⟩
    simp only [kval, if_pos hj]
    by_cases hj0 : j = 0
    · subst hj0
      rw [if_pos rfl, if_neg (by rintro ⟨h, _⟩; exact h rfl)]
    · rw [if_neg hj0, hfn (j - 1)]
      simp only [rowFn, Nat.add_sub_cancel]
      by_cases hmem : (j - 1) ∈ rowOf c ip
      · rw [if_pos hmem, if_pos ⟨hj0, hmem⟩]
      · rw [if_neg hmem, if_neg (by rintro ⟨_, h⟩; exact hmem h)]

theorem flm_inner_fold (c : List Char) (I : ℕ) (hI : I < c.length) (prev : ℕ → ℕ)
    (hk : ∀ j ∈ rowOf c I, (if j = 0 then 0 else prev (j - 1)) + 1 = kval c I j) :
    ∀ (S P : List ℕ) (f : ℕ → ℕ) (best : ℕ × ℕ × ℕ),
      rowOf c I = P ++ S →
      (∀ j', f j' = if j' ∈ P then kval c I j' else 0) →
      best.1 = best.2.1 →
      best.1 + best.2.2 ≤ c.length →
      (∀ i' j', i' < I → j' ∈ rowOf c i' → kval c i' j' ≤ best.2.2) →
      (∀ j' ∈ P, kval c I j' ≤ best.2.2) →
      (∀ j', (S.foldl (fun acc j =>
          let k := (if j = 0 then 0 else prev (j - 1)) + 1
          (Function.update acc.1 j k,
            if acc.2.2.2 < k then (I + 1 - k, j + 1 - k, k) else acc.2)) (f, best)).1 j' =
        if j' ∈ rowOf c I then kval c I j' else 0) ∧
      ((S.foldl (fun acc j =>
          let k := (if j = 0 then 0 else prev (j - 1)) + 1
          (Function.update acc.1 j k,
            if acc.2.2.2 < k then (I + 1 - k, j + 1 - k, k) else acc.2)) (f, best)).2.1 =
        (S.foldl (fun acc j =>
          let k := (if j = 0 then 0 else prev (j - 1)) + 1
          (Function.update acc.1 j k,
            if acc.2.2.2 < k then (I + 1 - k, j + 1 - k, k) else acc.2)) (f, best)).2.2.1) ∧
      ((S.foldl (fun acc j =>
          let k := (if j = 0 then 0 else prev (j - 1)) + 1
          (Function.update acc.1 j k,
            if acc.2.2.2 < k then (I + 1 - k, j + 1 - k, k) else acc.2)) (f, best)).2.1 +
        (S.foldl (fun acc j =>
          let k := (if j = 0 then 0 else prev (j - 1)) + 1
          (Function.update acc.1 j k,
            if acc.2.2.2 < k then (I + 1 - k, j + 1 - k, k) else acc.2)) (f, best)).2.2.2 ≤
        c.length) ∧
      (∀ i' j', i' < I → j' ∈ rowOf c i' → kval c i' j' ≤
        (S.foldl (fun acc j =>
          let k := (if j = 0 then 0 else prev (j - 1)) + 1
          (Function.update acc.1 j k,
            if acc.2.2.2 < k then (I + 1 - k, j + 1 - k, k) else acc.2)) (f, best)).2.2.2) ∧
      (∀ j' ∈ rowOf c I, kval c I j' ≤
        (S.foldl (fun acc j =>
          let k := (if j = 0 then 0 else prev (j - 1)) + 1
          (Function.update acc.1 j k,
            if acc.2.2.2 < k then (I + 1 - k, j + 1 - k, k) else acc.2)) (f, best)).2.2.2) := by
  intro S
  induction S with
  | nil =>
    intro P f best hsplit hf hdiag hbound hall hP
    rw [List.append_nil] at hsplit
    subst hsplit
    exact ⟨fun j' => hf j', hdiag, hbound, hall, hP⟩
  | cons j S' ih =>
    intro P f best hsplit hf hdiag hbound hall hP
    have hjmem : j ∈ rowOf c I := by
      rw [hsplit]
      exact List.mem_append_right P (List.mem_cons_self j S')
    have hkj := hk j hjmem
    rw [List.foldl_cons]
    dsimp only
    -- the step's components
    by_cases hlt : best.2.2 < (if j = 0 then 0 else prev (j - 1)) + 1
    · -- the best is updated: the update position must be diagonal
      have hjI : j = I := by
        by_contra hne
        rcases Nat.lt_or_ge j I with hjlt | hjge
        · have h1 : kval c I j ≤ kval c j j := kval_le_diag_left I j hjlt hjmem
          have h2 : kval c j j ≤ best.2.2 := hall j j hjlt (mem_rowOf_self hjmem)
          omega
        · have hjgt : I < j := by omega
          have h1 : kval c I j ≤ kval c I I := kval_le_diag_right I j hjgt hI hjmem
          have hImem : I ∈ rowOf c I := self_mem_rowOf hI hjmem
          have hIinP : I ∈ P := by
            have hpw : List.Pairwise (· < ·) (rowOf c I) := rowOf_sorted c I
            rw [hsplit] at hpw hImem
            rcases List.mem_append.mp hImem with h | h
            · exact h
            · exfalso
              rcases List.mem_cons.mp h with rfl | h
              · omega
              · have := (List.pairwise_cons.mp (List.pairwise_append.mp hpw).2.1).1 _ h
                omega
          have h2 : kval c I I ≤ best.2.2 := hP I hIinP
          omega
      subst hjI
      -- the row index is now `j` itself
      rw [hkj] at hlt
      rw [hkj, if_pos hlt]
      apply ih (P ++ [j])
      · rw [hsplit, List.append_assoc]
        rfl
      · intro j'
        by_cases hj' : j' = j
        · subst hj'
          rw [Function.update_same, if_pos (by simp)]
        · rw [Function.update_noteq hj', hf j']
          by_cases hmem : j' ∈ P
          · rw [if_pos hmem, if_pos (by simp [hmem])]
          · rw [if_neg hmem, if_neg (by simp [hmem, hj'])]
      · rfl
      · have hkle : kval c j j ≤ j + 1 := kval_le j j
        simp only
        omega
      · intro i' j' hi' hmem
        have := hall i' j' hi' hmem
        simp only
        omega
      · intro j' hmem
        rcases List.mem_append.mp hmem with h | h
        · have := hP j' h
          simp only
          omega
        · rcases List.mem_cons.mp h with rfl | h
          · simp only
            exact le_refl _
          · exact absurd h (List.not_mem_nil j')
    · -- the best is unchanged
      rw [hkj] at hlt
      rw [hkj, if_neg hlt]
      apply ih (P ++ [j])
      · rw [hsplit, List.append_assoc]
        rfl
      · intro j'
        by_cases hj' : j' = j
        · subst hj'
          rw [Function.update_same, if_pos (by simp)]
        · rw [Function.update_noteq hj', hf j']
          by_cases hmem : j' ∈ P
          · rw [if_pos hmem, if_pos (by simp [hmem])]
          · rw [if_neg hmem, if_neg (by simp [hmem, hj'])]
      · exact hdiag
      · exact hbound
      · exact hall
      · intro j' hmem
        rcases List.mem_append.mp hmem with h | h
        · exact hP j' h
        · rcases List.mem_cons.mp h with rfl | h
          · omega
          · exact absurd h (List.not_mem_nil j')

/-- Folding `flmRow` over the remaining rows keeps the best block diagonal
and inside the region. -/
theorem flm_outer_fold (c : List Char) :
    ∀ (m i₀ : ℕ) (st : (ℕ → ℕ) × (ℕ × ℕ × ℕ)),
      i₀ + m ≤ c.length →
      ((i₀ = 0 ∧ ∀ j, st.1 j = 0) ∨ (1 ≤ i₀ ∧ ∀ j, st.1 j = rowFn c (i₀ - 1) j)) →
      st.2.1 = st.2.2.1 →
      st.2.1 + st.2.2.2 ≤ c.length →
      (∀ i' j, i' < i₀ → j ∈ rowOf c i' → kval c i' j ≤ st.2.2.2) →
      ((List.range' i₀ m).foldl (flmRow c (chainB c) 0 c.length) st).2.1 =
        ((List.range' i₀ m).foldl (flmRow c (chainB c) 0 c.length) st).2.2.1 ∧
      ((List.range' i₀ m).foldl (flmRow c (chainB c) 0 c.length) st).2.1 +
        ((List.range' i₀ m).foldl (flmRow c (chainB c) 0 c.length) st).2.2.2 ≤ c.length := by
  intro m
  induction m with
  | zero =>
    intro i₀ st _ _ hdiag hbound _
    exact ⟨hdiag, hbound⟩
  | succ mp ih =>
    intro i₀ st hle hfn hdiag hbound hall
    have hI : i₀ < c.length := by omega
    have hrange : List.range' i₀ (mp + 1) = i₀ :: List.range' (i₀ + 1) mp := rfl
    rw [hrange, List.foldl_cons]
    have hstep : flmRow c (chainB c) 0 c.length st i₀ =
        (rowOf c i₀).foldl
          (fun acc j =>
            let k := (if j = 0 then 0 else st.1 (j - 1)) + 1
            (Function.update acc.1 j k,
              if acc.2.2.2 < k then (i₀ + 1 - k, j + 1 - k, k) else acc.2))
          (fun _ => 0, st.2) := rfl
    have hk := k_char c i₀ st.1 hfn
    have hinner := flm_inner_fold c i₀ hI st.1 hk (rowOf c i₀) [] (fun _ => 0) st.2
      rfl (fun j' => rfl) hdiag hbound hall (fun j' h => absurd h (List.not_mem_nil j'))
    obtain ⟨hfn', hdiag', hbound', hall', hrow'⟩ := hinner
    apply ih (i₀ + 1) (flmRow c (chainB c) 0 c.length st i₀) (by omega)
    · right
      refine ⟨by omega, ?_⟩
      intro j
      rw [hstep]
      rw [hfn' j]
      simp [rowFn]
    · rw [hstep]
      exact hdiag'
    · rw [hstep]
      exact hbound'
    · intro i' j hi' hmem
      rw [hstep]
      rcases Nat.lt_or_ge i' i₀ with h | h
      · exact hall' i' j h hmem
      · have : i' = i₀ := by omega
        subst this
        exact hrow' j hmem

/-- The first backward extension loop on equal strings extends a diagonal
block all the way to the left edge of the region. -/
theorem extBack_diag (c : List Char) : ∀ d s,
    extBack c c (fun _ => false) false 0 0 d d s = (0, 0, s + d) := by
  intro d
  induction d with
  | zero => intro s; simp [extBack]
  | succ dp ih =>
    intro s
    rw [extBack, if_pos ⟨Nat.succ_pos dp, Nat.succ_pos dp, rfl, by
      rw [Nat.add_sub_cancel]⟩]
    rw [Nat.add_sub_cancel, ih (s + 1)]
    have : s + 1 + dp = s + (dp + 1) := by omega
    rw [this]

/-- The first forward extension loop on equal strings extends a left-edge
diagonal block to the full region. -/
theorem extFwd_diag (c : List Char) : ∀ fuel bk,
    bk ≤ c.length → c.length ≤ fuel + bk →
    extFwd c c (fun _ => false) false c.length c.length 0 0 fuel bk = c.length := by
  intro fuel
  induction fuel with
  | zero =>
    intro bk h1 h2
    simp only [extFwd]
    omega
  | succ fp ih =>
    intro bk h1 h2
    rw [extFwd]
    by_cases hlt : bk < c.length
    · rw [if_pos ⟨by omega, by omega, rfl, rfl⟩]
      exact ih (bk + 1) (by omega) (by omega)
    · rw [if_neg (by rintro ⟨h, _⟩; omega)]
      omega

/-- The junk forward extension loop does not move past the region end. -/
theorem extFwd_true_at_end (c : List Char) (fuel : ℕ) :
    extFwd c c (fun _ => false) true c.length c.length 0 0 fuel c.length = c.length := by
  cases fuel with
  | zero => rfl
  | succ fp =>
    rw [extFwd, if_neg (by rintro ⟨h, _⟩; omega)]

/-- On equal nonempty strings `find_longest_match` over the full region
returns the whole diagonal. -/
theorem findLongestMatch_self {c : List Char} (hc : ¬ c = []) :
    findLongestMatch c c (chainB c) (fun _ => false) 0 c.length 0 c.length =
      (0, 0, c.length) := by
  have hn : 0 < c.length := List.length_pos.mpr hc
  have hmain := flm_outer_fold c c.length 0 (fun _ => 0, (0, 0, 0)) (by omega)
    (Or.inl ⟨rfl, fun _ => rfl⟩) rfl (by simp)
    (fun i' j h _ => absurd h (Nat.not_lt_zero i'))
  obtain ⟨hdiag, hbound⟩ := hmain
  have hopen : findLongestMatch c c (chainB c) (fun _ => false) 0 c.length 0 c.length =
      (let b1 := ((List.range' 0 c.length).foldl (flmRow c (chainB c) 0 c.length)
        (fun _ => 0, (0, 0, 0))).2
       let b2 := extBack c c (fun _ => false) false 0 0 b1.1 b1.2.1 b1.2.2
       let b3 := (b2.1, b2.2.1,
         extFwd c c (fun _ => false) false c.length c.length b2.1 b2.2.1 c.length b2.2.2)
       let b4 := extBack c c (fun _ => false) true 0 0 b3.1 b3.2.1 b3.2.2
       (b4.1, b4.2.1,
         extFwd c c (fun _ => false) true c.length c.length b4.1 b4.2.1 c.length b4.2.2)) :=
    rfl
  rw [hopen]
  set b1 := ((List.range' 0 c.length).foldl (flmRow c (chainB c) 0 c.length)
    (fun _ => 0, (0, 0, 0))).2 with hb1
  obtain ⟨d, d', s⟩ := b1
  simp only at hdiag hbound
  subst hdiag
  dsimp only
  rw [extBack_diag c d s]
  dsimp only
  rw [extFwd_diag c c.length (s + d) (by omega) (by omega)]
  rw [show extBack c c (fun _ => false) true 0 0 0 0 c.length = (0, 0, c.length) from rfl]
  dsimp only
  rw [extFwd_true_at_end]

/-- On equal nonempty strings the matching blocks cover everything: the
total match size is the whole length. -/
theorem matchSumAux_self {c : List Char} (hc : ¬ c = []) (fuel : ℕ) :
    matchSumAux c c (chainB c) (fun _ => false) (fuel + 1) 0 c.length 0 c.length =
      c.length := by
  have hn : 0 < c.length := List.length_pos.mpr hc
  rw [matchSumAux, findLongestMatch_self hc]
  dsimp only
  rw [if_neg (by omega), if_neg (by rintro ⟨h, _⟩; omega), if_neg (by rintro ⟨h, _⟩; omega)]
  omega

/-- `SequenceMatcher(None, c, c).ratio() = 1` for nonempty `c`. -/
theorem smRatio_self {c : List Char} (hc : ¬ c = []) : smRatio c c = 1 := by
  have hn : 0 < c.length := List.length_pos.mpr hc
  unfold smRatio
  rw [matchSumAux_self hc (c.length + c.length)]
  rw [if_neg (by omega)]
  have hq : ((c.length : ℚ)) ≠ 0 := Nat.cast_ne_zero.mpr (by omega)
  field_simp
  ring

/-- `calculate_similarity(s, s) = 1.0` whenever the cleaned string is
non-empty. -/
theorem similarity_self {s : String} (h : ¬ cleanStr s = []) :
    calculate_similarity s s = 1 := by
  have hs : ¬ s.toList = [] := by
    intro h0
    apply h
    unfold cleanStr
    rw [h0]
    rfl
  unfold calculate_similarity
  rw [if_neg (by rintro (h' | h') <;> exact hs h')]
  dsimp only
  rw [if_neg (by rintro (h' | h') <;> exact h h')]
  exact smRatio_self h

/-! ### Claim C4: similarity on identical and empty inputs -/

/-- Claim C4 counterexample: `" "` is a non-empty string, but
`calculate_similarity(" ", " ")` is `0.0`, not `1.0` — the space-removal
cleanup empties the string and hits the early `0.0` return. -/
theorem similarity_self_counterexample :
    calculate_similarity " " " " = 0 ∧ ¬ (" " : String) = "" ∧ ¬ (0 : ℚ) = 1 := by
  refine ⟨rfl, by decide, by norm_num⟩

/-- Claim C4 (amended): `calculate_similarity(s, s) = 1.0` for every `s`
whose lowercased, space-stripped form is non-empty (not for every non-empty
`s`: whitespace-only strings score `0.0`), and `calculate_similarity(s, "")
= 0.0` for every `s`. -/
theorem similarity_self_one_and_empty_zero (s : String) :
    (¬ cleanStr s = [] → calculate_similarity s s = 1) ∧
    calculate_similarity s "" = 0 := by
  refine ⟨fun h => similarity_self h, ?_⟩
  unfold calculate_similarity
  rw [if_pos (show s.toList = [] ∨ "".toList = [] from Or.inr rfl)]

/-- Witness for claim C4 at a concrete input. -/
theorem similarity_self_one_and_empty_zero_witness :
    ¬ cleanStr "ab" = [] ∧ calculate_similarity "ab" "ab" = 1 ∧
    calculate_similarity "ab" "" = 0 :=
  ⟨by decide, (similarity_self_one_and_empty_zero "ab").1 (by decide),
    (similarity_self_one_and_empty_zero "ab").2⟩

/-! ### Claim C5: no substring fast path -/

theorem similarity_abc_abcd : calculate_similarity "abc" "abcd" = 6 / 7 := by
  have hc1 : cleanStr "abc" = ['a', 'b', 'c'] := by decide
  have hc2 : cleanStr "abcd" = ['a', 'b', 'c', 'd'] := by decide
  simp only [calculate_similarity, smRatio, hc1, hc2]
  norm_num
  rw [show matchSumAux ['a', 'b', 'c'] ['a', 'b', 'c', 'd'] (chainB ['a', 'b', 'c', 'd'])
      (fun _ => false) 8 0 3 0 4 = 3 from by decide]
  norm_num
  simp

/-- Claim C5 counterexample: `"abc"` has length `> 2` and is a contiguous
substring of `"abcd"`, yet the similarity is `6/7`, not `1.0` — there is no
substring fast path. -/
theorem substring_fast_path_counterexample :
    2 < "abc".length ∧ "abc".toList <:+: "abcd".toList ∧
    ¬ calculate_similarity "abc" "abcd" = 1 := by
  refine ⟨by decide, by decide, ?_⟩
  rw [similarity_abc_abcd]
  norm_num

/-- Claim C5 (amended): `calculate_similarity` always runs the general
`SequenceMatcher` ratio; a contiguous-substring pair with length `> 2` can
score below `1.0`, e.g. `calculate_similarity("abc", "abcd") = 6/7`. -/
theorem substring_runs_general_algorithm :
    calculate_similarity "abc" "abcd" = 6 / 7 ∧ ¬ (6 / 7 : ℚ) = 1 :=
  ⟨similarity_abc_abcd, by norm_num⟩

/-! ### Claim C6: the line scan -/

theorem scanForNextAux_some {θ : ℚ} {t : String} :
    ∀ (l : List String) (i i' : ℕ) (line nxt : String),
      scanForNextAux θ t i l = some (i', line, nxt) →
      i ≤ i' ∧ i' - i + 1 < l.length ∧ l.getD (i' - i) "" = line ∧
      l.getD (i' - i + 1) "" = nxt ∧ θ ≤ calculate_similarity t line ∧
      ∀ j, j < i' - i → calculate_similarity t (l.getD j "") < θ := by
  intro l
  induction l with
  | nil => intro i i' line nxt h; exact absurd h (by simp [scanForNextAux])
  | cons x r ih =>
    intro i i' line nxt h
    match r, ih with
    | [], _ => exact absurd h (by simp [scanForNextAux])
    | y :: r', ih =>
      rw [scanForNextAux] at h
      by_cases hx : θ ≤ calculate_similarity t x
      · rw [if_pos hx] at h
        simp only [Option.some.injEq, Prod.mk.injEq] at h
        obtain ⟨rfl, rfl, rfl⟩ := h
        refine ⟨le_refl i, ?_, ?_, ?_, hx, ?_⟩
        · simp only [Nat.sub_self, List.length_cons]
          omega
        · rw [Nat.sub_self]
          rfl
        · rw [Nat.sub_self]
          rfl
        · intro j hj
          rw [Nat.sub_self] at hj
          omega
      · rw [if_neg hx] at h
        obtain ⟨h1, h2, h3, h4, h5, h6⟩ := ih (i + 1) i' line nxt h
        have hd : i' - i = (i' - (i + 1)) + 1 := by omega
        refine ⟨by omega, ?_, ?_, ?_, h5, ?_⟩
        · simp only [List.length_cons] at h2 ⊢
          omega
        · rw [hd]
          exact h3
        · rw [hd]
          exact h4
        · intro j hj
          match j with
          | 0 => exact lt_of_not_le hx
          | j' + 1 =>
            apply h6 j'
            omega

theorem scanForNextAux_none {θ : ℚ} {t : String} :
    ∀ (l : List String) (i : ℕ),
      (∀ j, j + 1 < l.length → calculate_similarity t (l.getD j "") < θ) →
      scanForNextAux θ t i l = none := by
  intro l
  induction l with
  | nil => intro i _; rfl
  | cons x r ih =>
    intro i hall
    match r, ih with
    | [], _ => rfl
    | y :: r', ih =>
      rw [scanForNextAux]
      have h0 : calculate_similarity t x < θ := by
        have := hall 0 (by simp only [List.length_cons]; omega)
        simpa using this
      rw [if_neg (not_le.mpr h0)]
      apply ih (i + 1)
      intro j hj
      have := hall (j + 1) (by simp only [List.length_cons] at hj ⊢; omega)
      simpa using this

/-- Claim C6: the line scan visits indices `0..len-2` in order and stops at
the first index whose similarity reaches the threshold, returning that
index with the line and the following line; it never returns an index at or
past `len(lines) - 1`, and when no index below the last meets the
threshold (in particular when only the last line would match) the result is
`none`. -/
theorem scanForNext_first_match (θ : ℚ) (t : String) (lines : List String) :
    (∀ i line nxt, scanForNext θ t lines = some (i, line, nxt) →
      i + 1 < lines.length ∧ lines.getD i "" = line ∧ lines.getD (i + 1) "" = nxt ∧
      θ ≤ calculate_similarity t line ∧
      ∀ j, j < i → calculate_similarity t (lines.getD j "") < θ) ∧
    ((∀ j, j + 1 < lines.length → calculate_similarity t (lines.getD j "") < θ) →
      scanForNext θ t lines = none) := by
  constructor
  · intro i line nxt h
    obtain ⟨h1, h2, h3, h4, h5, h6⟩ := scanForNextAux_some lines 0 i line nxt h
    rw [Nat.sub_zero] at h2 h3 h4
    refine ⟨h2, h3, h4, h5, ?_⟩
    intro j hj
    exact h6 j (by omega)
  · intro hall
    exact scanForNextAux_none lines 0 hall

/-- Witness for claim C6 at a concrete input. -/
theorem scanForNext_first_match_witness :
    0 + 1 < (["ab", "cd"] : List String).length ∧
    (["ab", "cd"] : List String).getD 0 "" = "ab" ∧
    (["ab", "cd"] : List String).getD (0 + 1) "" = "cd" ∧
    (1 / 2 : ℚ) ≤ calculate_similarity "ab" "ab" ∧
    ∀ j, j < 0 → calculate_similarity "ab" ((["ab", "cd"] : List String).getD j "") <
      (1 / 2 : ℚ) := by
  have hscan : scanForNext (1 / 2) "ab" ["ab", "cd"] = some (0, "ab", "cd") := by
    unfold scanForNext scanForNextAux
    rw [if_pos (by
      rw [similarity_self (show ¬ cleanStr "ab" = [] by decide)]
      norm_num)]
  exact (scanForNext_first_match (1 / 2) "ab" ["ab", "cd"]).1 0 "ab" "cd" hscan

/-! ### Claim C9: the candidate scan of `find_matching_lyric` -/

theorem songLoop_spec (θ : ℚ) (t : String) (lyricsO : Json → Option Json) :
    ∀ (songs : List Json) (acc : ℕ),
      (∀ s ∈ songs, ∃ kvs, s = Json.obj kvs) →
      (∀ sid ld, lyricsO sid = some ld → ld.truthy = true →
        ∃ lyric, fetchedLyric ld = some lyric) →
      (songLoop θ t lyricsO songs acc).1 =
        .ok (candidateScanSpec θ t lyricsO songs) := by
  intro songs
  induction songs with
  | nil => intro acc _ _; rfl
  | cons song rest ih =>
    intro acc hsongs hwf
    obtain ⟨kvs, rfl⟩ := hsongs song (List.mem_cons_self song rest)
    have hrest : ∀ s ∈ rest, ∃ kvs, s = Json.obj kvs :=
      fun s hs => hsongs s (List.mem_cons_of_mem _ hs)
    rw [songLoop, candidateScanSpec]
    match hid : kvLookup kvs "id" with
    | none => exact ih acc hrest hwf
    | some sid =>
      dsimp only
      by_cases htr : sid.truthy = true
      · rw [if_neg (by rw [htr]; intro h; exact h rfl)]
        rw [if_neg (by rw [htr]; intro h; exact h rfl)]
        match hld : lyricsO sid with
        | none => exact ih (acc + 1) hrest hwf
        | some ld =>
          dsimp only
          by_cases hltr : ld.truthy = true
          · rw [if_neg (by rw [hltr]; intro h; exact h rfl)]
            rw [if_neg (by rw [hltr]; intro h; exact h rfl)]
            obtain ⟨lyric, hlyr⟩ := hwf sid ld hld hltr
            match ld, hlyr with
            | .obj ldkvs, hlyr =>
              dsimp only
              simp only [fetchedLyric] at hlyr
              match hlrc : kvLookup ldkvs "lrc" with
              | none => rw [hlrc] at hlyr; exact absurd hlyr (by simp)
              | some (.null) => rw [hlrc] at hlyr; exact absurd hlyr (by simp)
              | some (.bool b) => rw [hlrc] at hlyr; exact absurd hlyr (by simp)
              | some (.num q) => rw [hlrc] at hlyr; exact absurd hlyr (by simp)
              | some (.str s') => rw [hlrc] at hlyr; exact absurd hlyr (by simp)
              | some (.arr l') => rw [hlrc] at hlyr; exact absurd hlyr (by simp)
              | some (.obj lrckvs) =>
                rw [hlrc] at hlyr
                dsimp only at hlyr ⊢
                match hlt : kvLookup lrckvs "lyric" with
                | none => rw [hlt] at hlyr; exact absurd hlyr (by simp)
                | some (.null) => rw [hlt] at hlyr; exact absurd hlyr (by simp)
                | some (.bool b) => rw [hlt] at hlyr; exact absurd hlyr (by simp)
                | some (.num q) => rw [hlt] at hlyr; exact absurd hlyr (by simp)
                | some (.arr l') => rw [hlt] at hlyr; exact absurd hlyr (by simp)
                | some (.obj okvs) => rw [hlt] at hlyr; exact absurd hlyr (by simp)
                | some (.str lyr) =>
                  dsimp only
                  have hfl : fetchedLyric (Json.obj ldkvs) = some lyr := by
                    simp only [fetchedLyric, hlrc, hlt]
                  rw [hfl]
                  dsimp only
                  by_cases hlen : (parse_lyrics lyr).length < 2
                  · rw [if_pos hlen, if_pos hlen]
                    exact ih (acc + 1) hrest hwf
                  · rw [if_neg hlen, if_neg hlen]
                    match scanForNext θ t (parse_lyrics lyr) with
                    | some (i, line, nxt) => rfl
                    | none => exact ih (acc + 1) hrest hwf
          · have hltr' : ld.truthy = false := by
              cases h' : ld.truthy
              · rfl
              · exact absurd h' hltr
            rw [if_pos (by rw [hltr']; simp), if_pos (by rw [hltr']; simp)]
            exact ih (acc + 1) hrest hwf
      · have htr' : sid.truthy = false := by
          cases h' : sid.truthy
          · rfl
          · exact absurd h' htr
        rw [if_pos (by rw [htr']; simp), if_pos (by rw [htr']; simp)]
        exact ih acc hrest hwf

/-- Claim C9 counterexample: a candidate whose `id` is present but falsy
(the number 0) is skipped even though its lyrics contain a matching line
with a successor — the result is `none` although the claim's scan would
yield the match. -/
theorem candidate_falsy_id_counterexample :
    (find_matching_lyric (6 / 10) 5 "hello world"
      (fun _ _ => .arr [.obj [("id", .num 0), ("name", .str "A")]])
      (fun _ => some (.obj [("lrc", .obj [("lyric",
        .str "[00:01.00]hello world\n[00:02.00]next up")])]))).1 = .ok none ∧
    parse_lyrics "[00:01.00]hello world\n[00:02.00]next up" =
      ["hello world", "next up"] ∧
    (6 / 10 : ℚ) ≤ calculate_similarity "hello world" "hello world" := by
  refine ⟨rfl, by decide, ?_⟩
  rw [similarity_self (show ¬ cleanStr "hello world" = [] by decide)]
  norm_num

/-- Claim C9 (amended): for every search-result list of dictionary
candidates (a non-dictionary candidate raises), `find_matching_lyric`
examines the candidates in list order and yields the scan hit of the
earliest matching one, skipping candidates whose `id` is absent or falsy
(such as the number 0), whose lyrics fetch is `none` or falsy, or whose
parsed lyrics hold fewer than two lines; when every candidate is skipped or
unmatched the result is `none`. -/
theorem find_matching_lyric_scans_candidates (θ : ℚ) (m : ℕ) (t : String)
    (songs : List Json) (lyricsO : Json → Option Json)
    (hsongs : ∀ s ∈ songs, ∃ kvs, s = Json.obj kvs)
    (hwf : ∀ sid ld, lyricsO sid = some ld → ld.truthy = true →
      ∃ lyric, fetchedLyric ld = some lyric) :
    (find_matching_lyric θ m t (fun _ _ => .arr songs) lyricsO).1 =
      .ok (candidateScanSpec θ t lyricsO songs) := by
  match songs, hsongs with
  | [], _ => rfl
  | song :: rest, hsongs =>
    have hred : (find_matching_lyric θ m t (fun _ _ => .arr (song :: rest)) lyricsO).1 =
        (songLoop θ t lyricsO (song :: rest) 0).1 := rfl
    rw [hred]
    exact songLoop_spec θ t lyricsO (song :: rest) 0 hsongs hwf

/-- Witness for claim C9 at a concrete input. -/
theorem find_matching_lyric_scans_candidates_witness :
    (find_matching_lyric (6 / 10) 5 "la"
      (fun _ _ => .arr [.obj [("id", Json.str "x")]]) (fun _ => none)).1 =
      .ok (candidateScanSpec (6 / 10) "la" (fun _ => none)
        [.obj [("id", Json.str "x")]]) := by
  apply find_matching_lyric_scans_candidates
  · intro s hs
    rcases List.mem_cons.mp hs with rfl | h
    · exact ⟨_, rfl⟩
    · exact absurd h (List.not_mem_nil s)
  · intro sid ld h
    exact absurd h (by simp)

/-! ### Claim C3: there is no cache-hit path -/

/-- Claim C3 counterexample: a resolution that succeeds — so its input is
from then on a "previously resolved" key — still performs one
`search_songs` call, not zero; the resolver is pure in its inputs, so a
repeated identical invocation performs exactly the same calls, and no
invocation ever performs zero remote calls. -/
theorem cache_hit_counterexample :
    find_matching_lyric (6 / 10) 5 "hello world"
        (fun _ _ => .arr [.obj [("id", Json.str "song1"), ("name", Json.str "A")]])
        (fun _ => some (.obj [("lrc", .obj [("lyric",
          Json.str "[00:01.00]hello world\n[00:02.00]next up")])])) =
      (.ok (some (Json.str "A", "hello world", "next up", Json.str "song1")), 1, 1) ∧
    ¬ (1 : ℕ) = 0 := by
  refine ⟨?_, by decide⟩
  have hsim1 : (6 / 10 : ℚ) ≤ calculate_similarity "hello world" "hello world" := by
    rw [similarity_self (show ¬ cleanStr "hello world" = [] by decide)]
    norm_num
  have hscan : scanForNext (6 / 10) "hello world" ["hello world", "next up"] =
      some (0, "hello world", "next up") := by
    unfold scanForNext scanForNextAux
    rw [if_pos hsim1]
  have hloop : songLoop (6 / 10) "hello world"
      (fun _ => some (.obj [("lrc", .obj [("lyric",
        Json.str "[00:01.00]hello world\n[00:02.00]next up")])]))
      [.obj [("id", Json.str "song1"), ("name", Json.str "A")]] 0 =
      (match scanForNext (6 / 10) "hello world" ["hello world", "next up"] with
       | some (_, line, nxt) =>
         (.ok (some (Json.str "A", line, nxt, Json.str "song1")), 0 + 1)
       | none => songLoop (6 / 10) "hello world"
           (fun _ => some (.obj [("lrc", .obj [("lyric",
             Json.str "[00:01.00]hello world\n[00:02.00]next up")])])) [] (0 + 1)) := rfl
  rw [hscan] at hloop
  have hred : find_matching_lyric (6 / 10) 5 "hello world"
      (fun _ _ => .arr [.obj [("id", Json.str "song1"), ("name", Json.str "A")]])
      (fun _ => some (.obj [("lrc", .obj [("lyric",
        Json.str "[00:01.00]hello world\n[00:02.00]next up")])])) =
      ((songLoop (6 / 10) "hello world"
        (fun _ => some (.obj [("lrc", .obj [("lyric",
          Json.str "[00:01.00]hello world\n[00:02.00]next up")])]))
        [.obj [("id", Json.str "song1"), ("name", Json.str "A")]] 0).1, 1,
       (songLoop (6 / 10) "hello world"
        (fun _ => some (.obj [("lrc", .obj [("lyric",
          Json.str "[00:01.00]hello world\n[00:02.00]next up")])]))
        [.obj [("id", Json.str "song1"), ("name", Json.str "A")]] 0).2) := rfl
  rw [hred, hloop]

/-- Claim C3 (amended): the implementation keeps no local store, so there is
no cache-hit path — every resolver invocation, including a repeat of a
previously resolved input, issues exactly one remote search call, never
zero. -/
theorem no_cache_hit_path : ∀ inv : Invocation, 0 < inv.searchCalls := by
  intro inv
  rw [searchCalls_eq_one inv]
  omega

end LyricPlugin
